import Mathlib

/-!
Verification of the rendering core of `myuon/ruyt` (a Monte Carlo ray tracer).

The embedding models `f32` scalars as exact rationals (`ℚ`): all the arithmetic
appearing in the verified code paths (comparisons, +, -, *, /) is idealized as
exact field arithmetic.  The transcendental `f32` library functions (`sqrt`,
`ln`, `sin`, `cos`, the constant `π`) and the ambient random-number generator
have no rational counterpart; they are supplied by an explicit environment
(`Env`) of uninterpreted functions, and `rand::random::<f32>()` draws are
modelled as a stream `rand : ℕ → ℚ` consumed through an explicit counter that
every effectful function threads.  A Rust `panic!`/`unimplemented!` is modelled
as the `Except.error` branch of an `Except Unit` result.

Floating-point special values only matter for the NaN/infinity sanitization of
the renderer loop; that part is modelled separately by the four-constructor
type `F32` (finite/±∞/NaN) at the end of the file.  The vector newtype `V3U`
of `vector.rs`, whose constructor normalizes, is modelled over `ℝ` (its content
is a statement about exact Euclidean norms).
-/

/-- `V3` from `src/vector.rs`: an ordered triple of scalars. -/
structure V3 where
  x : ℚ
  y : ℚ
  z : ℚ
deriving DecidableEq

/-- `V3::add` (componentwise). -/
def V3.add (a b : V3) : V3 := ⟨a.x + b.x, a.y + b.y, a.z + b.z⟩

/-- `V3::sub` (componentwise). -/
def V3.sub (a b : V3) : V3 := ⟨a.x - b.x, a.y - b.y, a.z - b.z⟩

/-- `V3::neg` from `src/vector.rs` (defined there as `V3(0,0,0) - self`). -/
def V3.neg (a : V3) : V3 := V3.sub ⟨0, 0, 0⟩ a

/-- `V3::mul` (componentwise product, `Mul<V3> for V3`). -/
def V3.mul (a b : V3) : V3 := ⟨a.x * b.x, a.y * b.y, a.z * b.z⟩

/-- `V3::scale`. -/
def V3.scale (a : V3) (c : ℚ) : V3 := ⟨a.x * c, a.y * c, a.z * c⟩

/-- `Dim3Dot::dot` from `src/vector.rs`. -/
def V3.dot (a b : V3) : ℚ := a.x * b.x + a.y * b.y + a.z * b.z

/-- `V3::square_norm` from `src/vector.rs` (`self.dot(self)`). -/
def V3.squareNorm (a : V3) : ℚ := a.dot a

/-- `Ray` as used throughout `src/figures.rs`: origin plus direction triple. -/
structure Ray where
  origin : V3
  direction : V3
deriving DecidableEq

/-- `Ray::extend_at` from `src/vector.rs`. -/
def Ray.extendAt (r : Ray) (scaler : ℚ) : V3 := r.origin.add (r.direction.scale scaler)

/-- `HitRecord` as constructed by the `hit` functions in `src/figures.rs`. -/
structure HitRecord where
  at' : ℚ
  point : V3
  normal : V3
  u : ℚ
  v : ℚ
deriving DecidableEq

/-- `Aabb` from `src/figures.rs`. -/
structure Aabb where
  min : V3
  max : V3
deriving DecidableEq

/-- `Aabb::hit` from `src/figures.rs`: the per-axis slab test, with the
`invD < 0` swap and the `tmax <= tmin` early-exit after each axis.
Division is exact rational division (the verified uses never divide by a
zero direction component). -/
def Aabb.slabHit (bb : Aabb) (ray : Ray) (tmin tmax : ℚ) : Bool :=
  let invD := 1 / ray.direction.x
  let t0 := (bb.min.x - ray.origin.x) * invD
  let t1 := (bb.max.x - ray.origin.x) * invD
  let (t0, t1) := if invD < 0 then (t1, t0) else (t0, t1)
  let tmin := if t0 > tmin then t0 else tmin
  let tmax := if t1 < tmax then t1 else tmax
  if tmax ≤ tmin then false
  else
    let invD := 1 / ray.direction.y
    let t0 := (bb.min.y - ray.origin.y) * invD
    let t1 := (bb.max.y - ray.origin.y) * invD
    let (t0, t1) := if invD < 0 then (t1, t0) else (t0, t1)
    let tmin := if t0 > tmin then t0 else tmin
    let tmax := if t1 < tmax then t1 else tmax
    if tmax ≤ tmin then false
    else
      let invD := 1 / ray.direction.z
      let t0 := (bb.min.z - ray.origin.z) * invD
      let t1 := (bb.max.z - ray.origin.z) * invD
      let (t0, t1) := if invD < 0 then (t1, t0) else (t0, t1)
      let tmin := if t0 > tmin then t0 else tmin
      let tmax := if t1 < tmax then t1 else tmax
      if tmax ≤ tmin then false else true

/-- `Aabb::surround` from `src/figures.rs`: componentwise min of mins and
max of maxes. -/
def Aabb.surround (a other : Aabb) : Aabb :=
  { min := ⟨Min.min a.min.x other.min.x, Min.min a.min.y other.min.y,
            Min.min a.min.z other.min.z⟩
    max := ⟨Max.max a.max.x other.max.x, Max.max a.max.y other.max.y,
            Max.max a.max.z other.max.z⟩ }

/-- The primitive tree `Figures` from `src/figures.rs`.  Constructor payloads
are the struct fields of the corresponding Rust variants (`RotateY` stores the
precomputed `sin_theta`/`cos_theta`/`bbox`, `Cuboid` stores the two corners and
the internally assembled group of six rectangles, `BvhNode` stores the cached
box and its two children).  `figs` is the `Figures::Figures` group variant. -/
inductive Figures where
  | sphere (center : V3) (radius : ℚ)
  | xyRect (x0 x1 y0 y1 k : ℚ)
  | yzRect (y0 y1 z0 z1 k : ℚ)
  | xzRect (x0 x1 z0 z1 k : ℚ)
  | flipNormals (figure : Figures)
  | cuboid (pmin pmax : V3) (figure : Figures)
  | translate (offset : V3) (figure : Figures)
  | rotateY (sinTheta cosTheta : ℚ) (figure : Figures) (bbox : Aabb)
  | constantMedium (density : ℚ) (boundary : Figures)
  | figs (figures : List Figures)
  | bvhNode (bbox : Aabb) (left right : Figures)

/-- Environment of uninterpreted `f32` library functions and the stream of
`rand::random::<f32>()` draws. `sq` models `f32::sqrt`, `logE` models
`f32::log(E)`, `cos`/`sin`/`pi` the trigonometric functions and constant.
`figPdfValue` and `figRandom` model the primitive light-sampling hooks
`Figures::pdf_value` and `Figures::random` (declared by their callers in
`src/pdf.rs` but absent from `src/figures.rs`); `figRandom` returns the drawn
direction and the advanced draw counter. -/
structure Env where
  sq : ℚ → ℚ
  logE : ℚ → ℚ
  cos : ℚ → ℚ
  sin : ℚ → ℚ
  pi : ℚ
  rand : ℕ → ℚ
  figPdfValue : Figures → V3 → V3 → ℚ
  figRandom : Figures → V3 → ℕ → V3 × ℕ

/-- `std::f32::MAX` as an exact rational. -/
def f32Max : ℚ := 2 ^ 128 - 2 ^ 104

/-- `std::f32::MIN` (the most negative finite `f32`, equal to `-MAX`). -/
def f32Min : ℚ := -f32Max

mutual

/-- `Figures::hit` from `src/figures.rs` (all variants).  The second component
of the result is the random-draw counter after the call (`ConstantMedium::hit`
is the only variant consuming a draw). -/
def Figures.hit (env : Env) : Figures → Ray → ℚ → ℚ → ℕ → Option HitRecord × ℕ
  | .sphere center radius, ray, tmin, tmax, n =>
    let oc := ray.origin.sub center
    let a := ray.direction.squareNorm
    let b := oc.dot ray.direction
    let c := oc.squareNorm - radius * radius
    let discriminant := b * b - a * c
    if discriminant > 0 then
      let check := fun (t : ℚ) =>
        if tmin < t ∧ t < tmax then
          let point := ray.extendAt t
          some { at' := t, point := point,
                 normal := (point.sub center).scale (1 / radius), u := 1, v := 1 }
        else none
      ((check ((-b - env.sq discriminant) / a)).or (check ((-b + env.sq discriminant) / a)), n)
    else (none, n)
  | .xyRect x0 x1 y0 y1 k, ray, tmin, tmax, n =>
    let t := (k - ray.origin.z) / ray.direction.z
    if t < tmin ∨ t > tmax then (none, n)
    else
      let x := ray.origin.x + t * ray.direction.x
      let y := ray.origin.y + t * ray.direction.y
      if x < x0 ∨ x > x1 ∨ y < y0 ∨ y > y1 then (none, n)
      else
        (some { at' := t, point := ray.extendAt t, normal := ⟨0, 0, 1⟩,
                u := (x - x0) / (x1 - x0), v := (y - y0) / (y1 - y0) }, n)
  | .yzRect y0 y1 z0 z1 k, ray, tmin, tmax, n =>
    let t := (k - ray.origin.x) / ray.direction.x
    if t < tmin ∨ t > tmax then (none, n)
    else
      let y := ray.origin.y + t * ray.direction.y
      let z := ray.origin.z + t * ray.direction.z
      if y < y0 ∨ y > y1 ∨ z < z0 ∨ z > z1 then (none, n)
      else
        (some { at' := t, point := ray.extendAt t, normal := ⟨1, 0, 0⟩,
                u := (y - y0) / (y1 - y0), v := (z - z0) / (z1 - z0) }, n)
  | .xzRect x0 x1 z0 z1 k, ray, tmin, tmax, n =>
    let t := (k - ray.origin.y) / ray.direction.y
    if t < tmin ∨ t > tmax then (none, n)
    else
      let x := ray.origin.x + t * ray.direction.x
      let z := ray.origin.z + t * ray.direction.z
      if x < x0 ∨ x > x1 ∨ z < z0 ∨ z > z1 then (none, n)
      else
        (some { at' := t, point := ray.extendAt t, normal := ⟨0, 1, 0⟩,
                u := (x - x0) / (x1 - x0), v := (z - z0) / (z1 - z0) }, n)
  | .flipNormals figure, ray, tmin, tmax, n =>
    match figure.hit env ray tmin tmax n with
    | (some rec, n') => (some { rec with normal := rec.normal.neg }, n')
    | (none, n') => (none, n')
  | .cuboid _ _ figure, ray, tmin, tmax, n => figure.hit env ray tmin tmax n
  | .translate offset figure, ray, tmin, tmax, n =>
    let movedRay : Ray := { origin := ray.origin.sub offset, direction := ray.direction }
    match figure.hit env movedRay tmin tmax n with
    | (some rec, n') => (some { rec with point := rec.point.add offset }, n')
    | (none, n') => (none, n')
  | .rotateY sinTheta cosTheta figure _, ray, tmin, tmax, n =>
    let origin : V3 := ⟨cosTheta * ray.origin.x - sinTheta * ray.origin.z,
                        ray.origin.y,
                        sinTheta * ray.origin.x + cosTheta * ray.origin.z⟩
    let direction : V3 := ⟨cosTheta * ray.direction.x - sinTheta * ray.direction.z,
                           ray.direction.y,
                           sinTheta * ray.direction.x + cosTheta * ray.direction.z⟩
    let rotatedR : Ray := { origin := origin, direction := direction }
    match figure.hit env rotatedR tmin tmax n with
    | (some rec, n') =>
      (some { rec with
              point := ⟨cosTheta * rec.point.x + sinTheta * rec.point.z,
                        rec.point.y,
                        -sinTheta * rec.point.x + cosTheta * rec.point.z⟩,
              normal := ⟨cosTheta * rec.normal.x + sinTheta * rec.normal.z,
                         rec.normal.y,
                         -sinTheta * rec.normal.x + cosTheta * rec.normal.z⟩ }, n')
    | (none, n') => (none, n')
  | .constantMedium density boundary, ray, tmin, tmax, n =>
    match boundary.hit env ray f32Min f32Max n with
    | (some rec1, n1) =>
      match boundary.hit env ray (rec1.at' + 1 / 10000) f32Max n1 with
      | (some rec2, n2) =>
        let r1at := if rec1.at' < tmin then tmin else rec1.at'
        let r2at := if rec2.at' > tmax then tmax else rec2.at'
        if r1at ≥ r2at then (none, n2)
        else
          let r1at := if r1at < 0 then 0 else r1at
          let dirNorm := env.sq ray.direction.squareNorm
          let distanceInsideBoundary := (r2at - r1at) * dirNorm
          let hitDistance := -(1 / density) * env.logE (env.rand n2)
          if hitDistance < distanceInsideBoundary then
            let t := r1at + hitDistance / dirNorm
            (some { at' := t, point := ray.extendAt t, normal := ⟨1, 0, 0⟩,
                    u := 0, v := 0 }, n2 + 1)
          else (none, n2 + 1)
      | (none, n2) => (none, n2)
    | (none, n1) => (none, n1)
  | .figs figures, ray, tmin, tmax, n => Figures.hitScan env figures ray tmin tmax none n
  | .bvhNode bbox left right, ray, tmin, tmax, n =>
    if bbox.slabHit ray tmin tmax then
      match left.hit env ray tmin tmax n with
      | (some hitLeft, n1) =>
        match right.hit env ray tmin tmax n1 with
        | (some hitRight, n2) =>
          (if hitLeft.at' < hitRight.at' then some hitLeft else some hitRight, n2)
        | (none, n2) => (some hitLeft, n2)
      | (none, n1) =>
        match right.hit env ray tmin tmax n1 with
        | (some hitRight, n2) => (some hitRight, n2)
        | (none, n2) => (none, n2)
    else (none, n)

/-- The linear scan of the `Figures::Figures` branch of `Figures::hit`:
`closest_parameter` starts at `tmax` and is narrowed to `rec.at` whenever a
closer hit is found; the last record found is returned. -/
def Figures.hitScan (env : Env) : List Figures → Ray → ℚ → ℚ → Option HitRecord → ℕ →
    Option HitRecord × ℕ
  | [], _, _, _, record, n => (record, n)
  | object :: rest, ray, tmin, closest, record, n =>
    match object.hit env ray tmin closest n with
    | (some rec, n') => Figures.hitScan env rest ray tmin rec.at' (some rec) n'
    | (none, n') => Figures.hitScan env rest ray tmin closest record n'

end

/-- `Figures::bounding_box` from `src/figures.rs`.  The `Figures::Figures`
branch runs `unimplemented!()`, modelled as `Except.error ()`; delegating
variants propagate a child's panic.  The `Translate` branch reproduces the
source exactly: it maps the child's box through a rebuild that does NOT apply
the offset. -/
def Figures.boundingBox : Figures → ℚ → ℚ → Except Unit (Option Aabb)
  | .sphere center radius, _, _ =>
    .ok (some { min := center.sub ⟨radius, radius, radius⟩
                max := center.add ⟨radius, radius, radius⟩ })
  | .xyRect x0 x1 y0 y1 k, _, _ =>
    .ok (some { min := ⟨x0, y0, k - 1 / 10000⟩, max := ⟨x1, y1, k + 1 / 10000⟩ })
  | .yzRect y0 y1 z0 z1 k, _, _ =>
    .ok (some { min := ⟨k - 1 / 10000, y0, z0⟩, max := ⟨k + 1 / 10000, y1, z1⟩ })
  | .xzRect x0 x1 z0 z1 k, _, _ =>
    .ok (some { min := ⟨x0, k - 1 / 10000, z0⟩, max := ⟨x1, k + 1 / 10000, z1⟩ })
  | .flipNormals figure, t0, t1 => figure.boundingBox t0 t1
  | .cuboid pmin pmax _, _, _ => .ok (some { min := pmin, max := pmax })
  | .translate _ figure, t0, t1 =>
    match figure.boundingBox t0 t1 with
    | .ok bb => .ok (bb.map fun bbox => { min := bbox.min, max := bbox.max })
    | .error e => .error e
  | .rotateY _ _ _ bbox, _, _ => .ok (some bbox)
  | .constantMedium _ boundary, t0, t1 => boundary.boundingBox t0 t1
  | .figs _, _, _ => .error ()
  | .bvhNode bbox _ _, _, _ => .ok (some bbox)

/-- The sort key of `BvhNode::box_x_compare`: the figure's bounding box min
along X (the `unwrap` panics are guarded separately in `bvhNew`). -/
def boxMinX (f : Figures) : ℚ :=
  match f.boundingBox 0 0 with
  | .ok (some bb) => bb.min.x
  | _ => 0

/-- The sort key of `BvhNode::box_y_compare`. -/
def boxMinY (f : Figures) : ℚ :=
  match f.boundingBox 0 0 with
  | .ok (some bb) => bb.min.y
  | _ => 0

/-- The sort key of `BvhNode::box_z_compare`. -/
def boxMinZ (f : Figures) : ℚ :=
  match f.boundingBox 0 0 with
  | .ok (some bb) => bb.min.z
  | _ => 0

/-- Whether `f.bounding_box(0,0).unwrap()` succeeds (the comparators of
`BvhNode::new` panic otherwise). -/
def boxOk (f : Figures) : Bool :=
  match f.boundingBox 0 0 with
  | .ok (some _) => true
  | _ => false

/-- The axis-selection sort of `BvhNode::new`: stable sort of the figure list
by the chosen axis's bounding-box minimum (axis 0 = X, 1 = Y, otherwise Z). -/
def sortByAxis (axis : ℤ) (figures : List Figures) : List Figures :=
  if axis = 0 then figures.mergeSort (fun a b => decide (boxMinX a ≤ boxMinX b))
  else if axis = 1 then figures.mergeSort (fun a b => decide (boxMinY a ≤ boxMinY b))
  else figures.mergeSort (fun a b => decide (boxMinZ a ≤ boxMinZ b))

theorem length_sortByAxis (axis : ℤ) (figures : List Figures) :
    (sortByAxis axis figures).length = figures.length := by
  unfold sortByAxis
  split
  · exact List.length_mergeSort figures
  · split
    · exact List.length_mergeSort figures
    · exact List.length_mergeSort figures

theorem perm_sortByAxis (axis : ℤ) (figures : List Figures) :
    (sortByAxis axis figures).Perm figures := by
  unfold sortByAxis
  split
  · exact List.mergeSort_perm figures _
  · split
    · exact List.mergeSort_perm figures _
    · exact List.mergeSort_perm figures _

mutual

/-- `BvhNode::new` from `src/figures.rs`: draw a random axis (the `f32`→`i32`
cast truncates, and `3 * u ∈ [0,3)` for a unit draw, so it is the floor), sort
stably by that axis's box minimum, then split (`bvhSplit`).  Panics (`unwrap`
of a box-less figure in a comparator or at the final box computation) are
`.error`; the empty list, on which the Rust code recurses forever, is also
modelled as `.error`. -/
def bvhNew (env : Env) (figures : List Figures) (n : ℕ) (time0 time1 : ℚ) :
    Except Unit (Figures × ℕ) :=
  if figures.isEmpty then .error ()
  else if ¬ figures.all boxOk then .error ()
  else bvhSplit env (sortByAxis ⌊(3 : ℚ) * env.rand n⌋ figures) n time0 time1
termination_by figures.length * 2 + 1
decreasing_by
  simp only [length_sortByAxis]
  omega

/-- The split step of `BvhNode::new` on the sorted list: a singleton becomes
its own two children, a pair becomes the two children, a longer list is split
at the midpoint and each half rebuilt recursively; the node's cached box is
the `surround` of the two children's boxes (each obtained by a panicking
`unwrap`). -/
def bvhSplit (env : Env) (sorted : List Figures) (n : ℕ) (time0 time1 : ℚ) :
    Except Unit (Figures × ℕ) :=
  match sorted with
  | [] => .error ()
  | [f] =>
    match f.boundingBox time0 time1 with
    | .ok (some bb) => .ok (.bvhNode (bb.surround bb) f f, n + 1)
    | _ => .error ()
  | [f, g] =>
    match f.boundingBox time0 time1, g.boundingBox time0 time1 with
    | .ok (some bbl), .ok (some bbr) => .ok (.bvhNode (bbl.surround bbr) f g, n + 1)
    | _, _ => .error ()
  | a :: b :: c :: tl =>
    match bvhNew env ((a :: b :: c :: tl).take ((a :: b :: c :: tl).length / 2))
        (n + 1) time0 time1 with
    | .ok (left, n1) =>
      match bvhNew env ((a :: b :: c :: tl).drop ((a :: b :: c :: tl).length / 2))
          n1 time0 time1 with
      | .ok (right, n2) =>
        match left.boundingBox time0 time1, right.boundingBox time0 time1 with
        | .ok (some bbl), .ok (some bbr) =>
          .ok (.bvhNode (bbl.surround bbr) left right, n2)
        | _, _ => .error ()
      | .error e => .error e
    | .error e => .error e
termination_by sorted.length * 2
decreasing_by
  · simp only [List.length_take, List.length_cons]
    omega
  · simp only [List.length_drop, List.length_cons]
    omega

end

/-- A concrete environment for evaluating code paths that consult none of the
uninterpreted `f32` library functions. -/
def envTriv : Env :=
  { sq := fun _ => 0, logE := fun _ => 0, cos := fun _ => 0, sin := fun _ => 0,
    pi := 0, rand := fun _ => 0, figPdfValue := fun _ _ _ => 0,
    figRandom := fun _ _ n => (⟨0, 0, 0⟩, n) }

/-- Box containment, stating the `surround` property: `outer` contains `inner`
when `outer.min ≤ inner.min` and `inner.max ≤ outer.max` componentwise. -/
def Aabb.containsBox (outer inner : Aabb) : Prop :=
  outer.min.x ≤ inner.min.x ∧ outer.min.y ≤ inner.min.y ∧ outer.min.z ≤ inner.min.z ∧
  inner.max.x ≤ outer.max.x ∧ inner.max.y ≤ outer.max.y ∧ inner.max.z ≤ outer.max.z

instance (outer inner : Aabb) : Decidable (outer.containsBox inner) := by
  unfold Aabb.containsBox
  exact inferInstance

/-- C5: for all AABBs `A`, `B`, the box `A.surround(B)` contains both `A` and
`B`; its min is the componentwise minimum of the two mins and its max the
componentwise maximum of the two maxes; and it is smallest: every box
containing both `A` and `B` contains `A.surround(B)`. -/
theorem surround_contains_and_smallest (a b : Aabb) :
    (a.surround b).containsBox a ∧ (a.surround b).containsBox b ∧
    ((a.surround b).min.x = Min.min a.min.x b.min.x ∧
     (a.surround b).min.y = Min.min a.min.y b.min.y ∧
     (a.surround b).min.z = Min.min a.min.z b.min.z ∧
     (a.surround b).max.x = Max.max a.max.x b.max.x ∧
     (a.surround b).max.y = Max.max a.max.y b.max.y ∧
     (a.surround b).max.z = Max.max a.max.z b.max.z) ∧
    ∀ c : Aabb, c.containsBox a → c.containsBox b → c.containsBox (a.surround b) := by
  refine ⟨⟨min_le_left _ _, min_le_left _ _, min_le_left _ _,
           le_max_left _ _, le_max_left _ _, le_max_left _ _⟩,
          ⟨min_le_right _ _, min_le_right _ _, min_le_right _ _,
           le_max_right _ _, le_max_right _ _, le_max_right _ _⟩,
          ⟨rfl, rfl, rfl, rfl, rfl, rfl⟩, ?_⟩
  rintro c ⟨h1, h2, h3, h4, h5, h6⟩ ⟨g1, g2, g3, g4, g5, g6⟩
  exact ⟨le_min h1 g1, le_min h2 g2, le_min h3 g3,
         max_le h4 g4, max_le h5 g5, max_le h6 g6⟩

/-- Witness for C5 at concrete boxes. -/
theorem surround_contains_and_smallest_witness :
    (Aabb.surround ⟨⟨0,0,0⟩,⟨1,1,1⟩⟩ ⟨⟨-1,2,0⟩,⟨2,3,1⟩⟩).containsBox ⟨⟨0,0,0⟩,⟨1,1,1⟩⟩ ∧
    (Aabb.mk ⟨-5,-5,-5⟩ ⟨5,5,5⟩).containsBox
      (Aabb.surround ⟨⟨0,0,0⟩,⟨1,1,1⟩⟩ ⟨⟨-1,2,0⟩,⟨2,3,1⟩⟩) :=
  ⟨(surround_contains_and_smallest ⟨⟨0,0,0⟩,⟨1,1,1⟩⟩ ⟨⟨-1,2,0⟩,⟨2,3,1⟩⟩).1,
   (surround_contains_and_smallest ⟨⟨0,0,0⟩,⟨1,1,1⟩⟩ ⟨⟨-1,2,0⟩,⟨2,3,1⟩⟩).2.2.2
     ⟨⟨-5,-5,-5⟩,⟨5,5,5⟩⟩ (by decide) (by decide)⟩

/-- C4: `Translate::bounding_box` returns the child's bounding box unchanged —
the offset is never applied (the source rebuilds the box from its own fields) —
so at the failing input `Translate((1,0,0), Sphere(0,1))` the code yields the
child-local box `[-1,1]³` rather than the shifted box `[0,2]×[-1,1]×[-1,1]`
that the specification requires. -/
theorem translate_boundingBox_ignores_offset :
    (∀ (offset : V3) (figure : Figures) (t0 t1 : ℚ),
      (Figures.translate offset figure).boundingBox t0 t1 = figure.boundingBox t0 t1) ∧
    (Figures.translate ⟨1,0,0⟩ (Figures.sphere ⟨0,0,0⟩ 1)).boundingBox 0 1 =
      .ok (some ⟨⟨-1,-1,-1⟩, ⟨1,1,1⟩⟩) ∧
    Aabb.mk ⟨-1,-1,-1⟩ ⟨1,1,1⟩ ≠ Aabb.mk ⟨0,-1,-1⟩ ⟨2,1,1⟩ := by
  refine ⟨?_, ?_, by decide⟩
  · intro offset figure t0 t1
    simp only [Figures.boundingBox]
    cases figure.boundingBox t0 t1 with
    | error e => rfl
    | ok bb => cases bb <;> rfl
  · simp [Figures.boundingBox, V3.sub, V3.add]

/-- C9: the `Figures::Figures` (group) branch of `bounding_box` is
`unimplemented!()`: it panics for every child list (including the empty one)
and never returns a box. -/
theorem figs_boundingBox_unimplemented (fs : List Figures) (t0 t1 : ℚ) :
    (Figures.figs fs).boundingBox t0 t1 = .error () := by
  simp [Figures.boundingBox]

/-- C6 (amended): `XYRect::hit` returns a hit exactly when the plane solution
`t = (k - origin.z)/direction.z` lies in the CLOSED interval `[tmin, tmax]`
(the code rejects only `t < tmin || t > tmax`) and the two free coordinates lie
within the rectangle's closed bounds; the record then carries the fixed normal
`(0,0,1)` and `u`,`v` linearly mapped into `[0,1]`; any `t` outside the closed
interval yields no hit. -/
theorem xyRect_hit_closed_interval (env : Env) (x0 x1 y0 y1 k : ℚ) (ray : Ray)
    (tmin tmax : ℚ) (n : ℕ) (hdz : ray.direction.z ≠ 0) :
    (Figures.hit env (.xyRect x0 x1 y0 y1 k) ray tmin tmax n).1 =
      if tmin ≤ (k - ray.origin.z) / ray.direction.z ∧
         (k - ray.origin.z) / ray.direction.z ≤ tmax ∧
         x0 ≤ ray.origin.x + (k - ray.origin.z) / ray.direction.z * ray.direction.x ∧
         ray.origin.x + (k - ray.origin.z) / ray.direction.z * ray.direction.x ≤ x1 ∧
         y0 ≤ ray.origin.y + (k - ray.origin.z) / ray.direction.z * ray.direction.y ∧
         ray.origin.y + (k - ray.origin.z) / ray.direction.z * ray.direction.y ≤ y1 then
        some { at' := (k - ray.origin.z) / ray.direction.z,
               point := ray.extendAt ((k - ray.origin.z) / ray.direction.z),
               normal := ⟨0, 0, 1⟩,
               u := (ray.origin.x + (k - ray.origin.z) / ray.direction.z * ray.direction.x - x0)
                      / (x1 - x0),
               v := (ray.origin.y + (k - ray.origin.z) / ray.direction.z * ray.direction.y - y0)
                      / (y1 - y0) }
      else none := by
  simp only [Figures.hit, apply_ite (Prod.fst (α := Option HitRecord) (β := ℕ))]
  by_cases h1 : (k - ray.origin.z) / ray.direction.z < tmin ∨
      (k - ray.origin.z) / ray.direction.z > tmax
  · rw [if_pos h1, if_neg]
    rintro ⟨c1, c2, _⟩
    rcases h1 with h1 | h1 <;> linarith
  · rw [if_neg h1]
    push_neg at h1
    by_cases h2 : ray.origin.x + (k - ray.origin.z) / ray.direction.z * ray.direction.x < x0 ∨
        ray.origin.x + (k - ray.origin.z) / ray.direction.z * ray.direction.x > x1 ∨
        ray.origin.y + (k - ray.origin.z) / ray.direction.z * ray.direction.y < y0 ∨
        ray.origin.y + (k - ray.origin.z) / ray.direction.z * ray.direction.y > y1
    · rw [if_pos h2, if_neg]
      rintro ⟨_, _, c3, c4, c5, c6⟩
      rcases h2 with h2 | h2 | h2 | h2 <;> linarith
    · rw [if_neg h2]
      push_neg at h2
      rw [if_pos ⟨h1.1, h1.2, h2.1, h2.2.1, h2.2.2.1, h2.2.2.2⟩]

/-- C6 counterexample: a ray whose plane solution is exactly `t = tmax` is
accepted by `XYRect::hit` (here `tmax = 1` and the returned record has
`at = 1`), contradicting the claim that hits exist only strictly inside the
open interval `(tmin, tmax)`. -/
theorem xyRect_hit_accepts_tmax :
    (Figures.hit envTriv (.xyRect 0 1 0 1 1) ⟨⟨1/2, 1/2, 0⟩, ⟨0, 0, 1⟩⟩ (1/1000) 1 0).1 =
      some ⟨1, ⟨1/2, 1/2, 1⟩, ⟨0, 0, 1⟩, 1/2, 1/2⟩ := by
  simp [Figures.hit, Ray.extendAt, V3.add, V3.scale]
  norm_num

/-- Witness for C6 at a concrete rectangle and ray. -/
theorem xyRect_hit_closed_interval_witness :
    (Figures.hit envTriv (.xyRect 0 1 0 1 1) ⟨⟨1/2, 1/2, 0⟩, ⟨0, 0, 1⟩⟩ (1/1000) 2 0).1 =
      some ⟨1, ⟨1/2, 1/2, 1⟩, ⟨0, 0, 1⟩, 1/2, 1/2⟩ := by
  rw [xyRect_hit_closed_interval envTriv 0 1 0 1 1 ⟨⟨1/2, 1/2, 0⟩, ⟨0, 0, 1⟩⟩ (1/1000) 2 0
      (by norm_num)]
  norm_num [Ray.extendAt, V3.add, V3.scale]

/-- The `Metal` material struct from `src/materials.rs`. -/
structure Metal where
  albedo : V3
  fuzz : ℚ

/-- `Materials::metal` from `src/materials.rs`: the stored fuzz is
`if fuzz < 1.0 { fuzz } else { 1.0 }` — clamped from above only. -/
def materialsMetal (albedo : V3) (fuzz : ℚ) : Metal :=
  { albedo := albedo, fuzz := if fuzz < 1 then fuzz else 1 }

/-- C7 (amended): the stored fuzz equals `min(fuzz, 1)` — every argument above
1 is clamped to 1, so the stored value is always ≤ 1, and it lies in `[0,1]`
whenever the argument is nonnegative; arguments below 0 are NOT clamped. -/
theorem metal_fuzz_clamped_above (albedo : V3) (f : ℚ) :
    (materialsMetal albedo f).fuzz = Min.min f 1 ∧ (materialsMetal albedo f).fuzz ≤ 1 ∧
    (0 ≤ f → 0 ≤ (materialsMetal albedo f).fuzz ∧ (materialsMetal albedo f).fuzz ≤ 1) := by
  unfold materialsMetal
  dsimp only
  split_ifs with h
  · exact ⟨(min_eq_left h.le).symm, h.le, fun hf => ⟨hf, h.le⟩⟩
  · push_neg at h
    exact ⟨(min_eq_right h).symm, le_refl 1, fun _ => ⟨zero_le_one, le_refl 1⟩⟩

/-- C7 counterexample: `Materials::metal` with fuzz argument `-1` stores
`fuzz = -1`, which is not in `[0,1]` — no clamping from below happens. -/
theorem metal_fuzz_not_clamped_below :
    (materialsMetal ⟨1,1,1⟩ (-1)).fuzz = -1 ∧ ¬ (0 ≤ (materialsMetal ⟨1,1,1⟩ (-1)).fuzz) := by
  norm_num [materialsMetal]

/-- Witness for C7 at a concrete fuzz argument. -/
theorem metal_fuzz_clamped_above_witness :
    (materialsMetal ⟨1,1,1⟩ (1/2)).fuzz = Min.min (1/2) 1 ∧
    0 ≤ (materialsMetal ⟨1,1,1⟩ (1/2)).fuzz :=
  ⟨(metal_fuzz_clamped_above ⟨1,1,1⟩ (1/2)).1,
   ((metal_fuzz_clamped_above ⟨1,1,1⟩ (1/2)).2.2 (by norm_num)).1⟩

/-- `V3::normalize` from `src/vector.rs` (`self.scale(1.0 / self.norm())`),
with `f32::sqrt` supplied by the environment. -/
def V3.normalize (env : Env) (a : V3) : V3 := a.scale (1 / env.sq a.squareNorm)

/-- Modelled from the spec: the orthonormal-basis type `Onb` used by the PDF
module is absent from `src/` (`src/pdf.rs` calls `Onb::new_from_w`,
`uvw.local`, `uvw.w()`).  Per the spec (§4.4, glossary) it is a local frame of
three vectors with the normal as local Z. -/
structure Onb where
  u : V3
  v : V3
  w : V3

/-- Modelled from the spec: `Onb::local`, mapping local coordinates into world
space through the basis. (`local` is a reserved word in Lean, hence the
apostrophe.) -/
def Onb.local' (o : Onb) (a : V3) : V3 :=
  (o.u.scale a.x).add ((o.v.scale a.y).add (o.w.scale a.z))

/-- Modelled from the spec §4.4: `Onb::random_cosine_direction` draws `r1, r2`
uniform and returns `(cos φ·2√r2, sin φ·2√r2, √(1-r2))` with `φ = 2π·r1`;
it consumes two draws of the stream. -/
def randomCosineDirection (env : Env) (n : ℕ) : V3 :=
  let r1 := env.rand n
  let r2 := env.rand (n + 1)
  let z := env.sq (1 - r2)
  let phi := 2 * env.pi * r1
  ⟨env.cos phi * 2 * env.sq r2, env.sin phi * 2 * env.sq r2, z⟩

/-- The `Pdfs` enum from `src/pdf.rs` (variants `MixPdf`, `CosinePdf`,
`HitPdf`, with their struct payloads). -/
inductive Pdfs where
  | mixPdf (p0 p1 : Pdfs)
  | cosinePdf (uvw : Onb)
  | hitPdf (figure : Figures) (origin : V3)

/-- `Pdf::value` for `Pdfs` from `src/pdf.rs`: the mixture is
`0.5·p0.value + 0.5·p1.value`; `CosinePdf::value` is the clamped cosine over
π; `HitPdf::value` delegates to the figure's `pdf_value`. -/
def Pdfs.value (env : Env) : Pdfs → V3 → ℚ
  | .mixPdf p0 p1, direction =>
    1 / 2 * p0.value env direction + 1 / 2 * p1.value env direction
  | .cosinePdf uvw, direction =>
    let cosine := (direction.normalize env).dot uvw.w
    if cosine > 0 then cosine / env.pi else 0
  | .hitPdf figure origin, direction => env.figPdfValue figure origin direction

/-- `Pdf::generate` for `Pdfs` from `src/pdf.rs`: the mixture flips an
unbiased coin (`rand < 0.5`) to choose a sub-PDF; `CosinePdf` maps a
cosine-weighted local sample through its basis; `HitPdf` delegates to the
figure's `random`. -/
def Pdfs.generate (env : Env) : Pdfs → ℕ → V3 × ℕ
  | .mixPdf p0 p1, n =>
    if env.rand n < 1 / 2 then p0.generate env (n + 1) else p1.generate env (n + 1)
  | .cosinePdf uvw, n => (uvw.local' (randomCosineDirection env n), n + 2)
  | .hitPdf figure origin, n => env.figRandom figure origin n

/-- C8: `MixPdf::new(p0,p1).value(d)` equals `0.5·p0.value(d) + 0.5·p1.value(d)`,
and consequently the mixture's value is symmetric in its two components. -/
theorem mixPdf_value_even_mixture (env : Env) (p0 p1 : Pdfs) (d : V3) :
    Pdfs.value env (.mixPdf p0 p1) d =
      1 / 2 * Pdfs.value env p0 d + 1 / 2 * Pdfs.value env p1 d ∧
    Pdfs.value env (.mixPdf p0 p1) d = Pdfs.value env (.mixPdf p1 p0) d := by
  refine ⟨by simp [Pdfs.value], ?_⟩
  simp only [Pdfs.value]
  ring

/-- Modelled from the spec §4.3: the `ScatterRecord` used by `Scene::color` in
`src/main.rs` (fields `attenuation`, `specular_ray`, `pdf`, `is_scattered`).
The materials module defining it is missing from `src/` (the `materials.rs`
there is an earlier snapshot without these fields). -/
structure ScatterRec where
  attenuation : V3
  specularRay : Option Ray
  pdf : Option Pdfs
  isScattered : Bool

/-- Modelled from the spec §4.3 contract: a material supplies `scatter`
(which may consume random draws), `scattering_pdf` and `emitted`; the
individual material variants are missing from `src/`, so behavior is kept
abstract. -/
structure MaterialSpec where
  scatter : Ray → HitRecord → ℕ → ScatterRec × ℕ
  scatteringPdf : Ray → HitRecord → Ray → ℚ
  emitted : ℚ → ℚ → V3 → V3

/-- `Objects` from `src/main.rs`: a primitive paired with its material. -/
structure Objects where
  figure : Figures
  material : MaterialSpec

/-- `Scene` from `src/main.rs`. -/
structure Scene where
  objects : List Objects

/-- The loop body of `Scene::hit` from `src/main.rs`: linear scan over the
object list narrowing `closest_parameter` (nearest-hit semantics), keeping the
hit together with its object. -/
def sceneHitScan (env : Env) : List Objects → Ray → ℚ → ℚ → Option (HitRecord × Objects) → ℕ →
    Option (HitRecord × Objects) × ℕ
  | [], _, _, _, record, n => (record, n)
  | object :: rest, ray, tmin, closest, record, n =>
    match object.figure.hit env ray tmin closest n with
    | (some rec, n') => sceneHitScan env rest ray tmin rec.at' (some (rec, object)) n'
    | (none, n') => sceneHitScan env rest ray tmin closest record n'

/-- `Scene::hit` from `src/main.rs`. -/
def Scene.hit (env : Env) (s : Scene) (ray : Ray) (tmin tmax : ℚ) (n : ℕ) :
    Option (HitRecord × Objects) × ℕ :=
  sceneHitScan env s.objects ray tmin tmax none n

/-- `Scene::color` from `src/main.rs`: intersect over `(0.001, f32::MAX)`;
on a miss return black; on a hit compute `scatter` and `emitted`; if
`depth < 50 && is_scattered`, recurse through the specular ray or through the
mixture PDF (`HitPdf` over the light shape mixed with the material's PDF),
otherwise return `emitted` alone.  The `scatter_rec.pdf.unwrap()` panic is the
`.error` branch. -/
def Scene.color (env : Env) (s : Scene) (ray : Ray) (lightShape : Figures) (depth : ℤ)
    (n : ℕ) : Except Unit (V3 × ℕ) :=
  match Scene.hit env s ray (1 / 1000) f32Max n with
  | (some (rec, object), n1) =>
    let scatterPair := object.material.scatter ray rec n1
    let scatterRec := scatterPair.1
    let n2 := scatterPair.2
    let emitted := object.material.emitted rec.u rec.v rec.point
    if h : depth < 50 ∧ scatterRec.isScattered then
      match scatterRec.specularRay with
      | some specularRay =>
        match Scene.color env s specularRay lightShape (depth + 1) n2 with
        | .ok (c, n3) => .ok (scatterRec.attenuation.mul c, n3)
        | .error e => .error e
      | none =>
        match scatterRec.pdf with
        | some pdfm =>
          let p : Pdfs := .mixPdf (.hitPdf lightShape rec.point) pdfm
          let genPair := p.generate env n2
          let scattered : Ray := { origin := rec.point, direction := genPair.1 }
          let pdfVal := p.value env genPair.1
          match Scene.color env s scattered lightShape (depth + 1) genPair.2 with
          | .ok (c, n4) =>
            .ok (emitted.add (((scatterRec.attenuation.scale
                  (object.material.scatteringPdf ray rec scattered)).mul c).scale (1 / pdfVal)),
                 n4)
          | .error e => .error e
        | none => .error ()
    else .ok (emitted, n2)
  | (none, n1) => .ok (⟨0, 0, 0⟩, n1)
termination_by (50 - depth).toNat
decreasing_by
  all_goals
    have hd : depth < 50 := h.1
    omega

/-- C2: `Scene::color` returns exactly the material's `emitted` value at the
hit point (no recursive contribution) whenever `depth ≥ 50` or the scatter
record reports `is_scattered == false`; and it returns the zero vector when
the scene intersection over `(0.001, f32::MAX)` finds no hit. -/
theorem scene_color_terminal_cases :
    (∀ (env : Env) (s : Scene) (ray : Ray) (light : Figures) (depth : ℤ) (n n1 : ℕ)
        (rec : HitRecord) (object : Objects) (scatterRec : ScatterRec) (n2 : ℕ),
        Scene.hit env s ray (1 / 1000) f32Max n = (some (rec, object), n1) →
        object.material.scatter ray rec n1 = (scatterRec, n2) →
        (50 ≤ depth ∨ scatterRec.isScattered = false) →
        Scene.color env s ray light depth n =
          .ok (object.material.emitted rec.u rec.v rec.point, n2)) ∧
    (∀ (env : Env) (s : Scene) (ray : Ray) (light : Figures) (depth : ℤ) (n n1 : ℕ),
        Scene.hit env s ray (1 / 1000) f32Max n = (none, n1) →
        Scene.color env s ray light depth n = .ok (⟨0, 0, 0⟩, n1)) := by
  constructor
  · intro env s ray light depth n n1 rec object scatterRec n2 hhit hscatter hterm
    rw [Scene.color.eq_def, hhit]
    have hcond : ¬ (depth < 50 ∧ (object.material.scatter ray rec n1).1.isScattered = true) := by
      rw [hscatter]
      rcases hterm with hterm | hterm
      · rintro ⟨hlt, _⟩; omega
      · rintro ⟨_, hsc⟩; rw [hterm] at hsc; exact Bool.false_ne_true hsc
    dsimp only
    rw [dif_neg hcond, hscatter]
  · intro env s ray light depth n n1 hhit
    rw [Scene.color.eq_def, hhit]

/-- A concrete never-scattering material (constant emission) for exercising
`Scene::color`'s terminal branches. -/
def matNoScatter : MaterialSpec :=
  { scatter := fun _ _ n =>
      ({ attenuation := ⟨1, 1, 1⟩, specularRay := none, pdf := none, isScattered := false }, n),
    scatteringPdf := fun _ _ _ => 0,
    emitted := fun _ _ _ => ⟨7, 0, 0⟩ }

/-- A one-object concrete scene: the unit XY rectangle at `z = 1`. -/
def sceneW : Scene :=
  { objects := [{ figure := .xyRect 0 1 0 1 1, material := matNoScatter }] }

/-- Witness for C2: on the concrete scene, a hitting ray with a non-scattering
material yields exactly the emitted value, and a missing ray yields black. -/
theorem scene_color_terminal_cases_witness :
    Scene.color envTriv sceneW ⟨⟨1/2, 1/2, 0⟩, ⟨0, 0, 1⟩⟩ (.xyRect 0 1 0 1 1) 0 0 =
      .ok (⟨7, 0, 0⟩, 0) ∧
    Scene.color envTriv sceneW ⟨⟨5, 5, 0⟩, ⟨0, 0, 1⟩⟩ (.xyRect 0 1 0 1 1) 0 0 =
      .ok (⟨0, 0, 0⟩, 0) := by
  constructor
  · exact scene_color_terminal_cases.1 envTriv sceneW ⟨⟨1/2, 1/2, 0⟩, ⟨0, 0, 1⟩⟩
      (.xyRect 0 1 0 1 1) 0 0 0 ⟨1, ⟨1/2, 1/2, 1⟩, ⟨0, 0, 1⟩, 1/2, 1/2⟩
      { figure := .xyRect 0 1 0 1 1, material := matNoScatter }
      { attenuation := ⟨1, 1, 1⟩, specularRay := none, pdf := none, isScattered := false } 0
      (by simp [Scene.hit, sceneHitScan, sceneW, Figures.hit, Ray.extendAt, V3.add, V3.scale,
                f32Max] <;> norm_num)
      rfl (Or.inr rfl)
  · exact scene_color_terminal_cases.2 envTriv sceneW ⟨⟨5, 5, 0⟩, ⟨0, 0, 1⟩⟩
      (.xyRect 0 1 0 1 1) 0 0 0
      (by simp [Scene.hit, sceneHitScan, sceneW, Figures.hit, Ray.extendAt, V3.add, V3.scale,
                f32Max] <;> norm_num)

/-- Four-valued model of an `f32` for the NaN/infinity sanitization path of
the renderer: a finite value, the two infinities, or NaN. -/
inductive F32 where
  | fin (q : ℚ)
  | inf
  | neginf
  | nan
deriving DecidableEq

/-- `f32::is_nan`. -/
def F32.isNan : F32 → Bool
  | .nan => true
  | _ => false

/-- IEEE-style addition on the `F32` model: NaN absorbs, opposite infinities
give NaN, an infinity absorbs finite values. -/
def F32.add : F32 → F32 → F32
  | .nan, _ => .nan
  | _, .nan => .nan
  | .fin a, .fin b => .fin (a + b)
  | .fin _, .inf => .inf
  | .fin _, .neginf => .neginf
  | .inf, .fin _ => .inf
  | .neginf, .fin _ => .neginf
  | .inf, .inf => .inf
  | .neginf, .neginf => .neginf
  | .inf, .neginf => .nan
  | .neginf, .inf => .nan

/-- IEEE-style multiplication on the `F32` model: NaN absorbs, `0 · ∞ = NaN`,
signs propagate. -/
def F32.mul : F32 → F32 → F32
  | .nan, _ => .nan
  | _, .nan => .nan
  | .fin a, .fin b => .fin (a * b)
  | .fin a, .inf => if a > 0 then .inf else if a < 0 then .neginf else .nan
  | .fin a, .neginf => if a > 0 then .neginf else if a < 0 then .inf else .nan
  | .inf, .fin b => if b > 0 then .inf else if b < 0 then .neginf else .nan
  | .neginf, .fin b => if b > 0 then .neginf else if b < 0 then .inf else .nan
  | .inf, .inf => .inf
  | .inf, .neginf => .neginf
  | .neginf, .inf => .neginf
  | .neginf, .neginf => .inf

/-- `f32::sqrt` on the `F32` model, taking the finite-value square root as a
parameter: NaN for negative arguments and NaN/−∞, `+∞` for `+∞`. -/
def F32.sqrtF (sq : ℚ → ℚ) : F32 → F32
  | .fin q => if q < 0 then .nan else .fin (sq q)
  | .inf => .inf
  | .neginf => .nan
  | .nan => .nan

/-- A color triple of `F32` channels (the `V3` of radiance samples). -/
structure FV3 where
  x : F32
  y : F32
  z : F32
deriving DecidableEq

/-- Componentwise `V3` addition on the `F32` model. -/
def FV3.add (a b : FV3) : FV3 := ⟨a.x.add b.x, a.y.add b.y, a.z.add b.z⟩

/-- `V3::scale` on the `F32` model. -/
def FV3.scale (a : FV3) (c : F32) : FV3 := ⟨a.x.mul c, a.y.mul c, a.z.mul c⟩

/-- `V3::map` on the `F32` model. -/
def FV3.map (a : FV3) (f : F32 → F32) : FV3 := ⟨f a.x, f a.y, f a.z⟩

/-- `de_nan` from `src/main.rs` (lines 468-472): a component is replaced by 0
exactly when `is_nan` holds — an infinite component is kept unchanged. -/
def deNan (c : FV3) : FV3 := c.map (fun t => if t.isNan then .fin 0 else t)

/-- The per-pixel accumulation of the renderer closure in `main`
(`src/main.rs` lines 474-490), with the per-sample radiance values returned by
`scene.color` abstracted as the input list: the samples are summed (the
`Sum<V3>` impl folds `+` from `V3(0,0,0)`), scaled by `1/ns`, and
square-rooted per channel (gamma).  No `de_nan` call occurs on this path. -/
def renderAccum (sq : ℚ → ℚ) (samples : List FV3) (ns : ℚ) : FV3 :=
  ((samples.foldl FV3.add ⟨.fin 0, .fin 0, .fin 0⟩).scale (.fin (1 / ns))).map (F32.sqrtF sq)

/-- C3: the sanitization mandated by the spec is absent — a sample whose red
channel is NaN flows through the per-pixel accumulation unreplaced (the
accumulated pixel is NaN, not 0), and the `de_nan` helper the source defines
(but never calls) would keep an infinite channel unchanged anyway, fixing only
NaN channels. -/
theorem renderAccum_no_sanitization :
    renderAccum (fun q => q) [⟨.nan, .fin 0, .fin 0⟩] 1 = ⟨.nan, .fin 0, .fin 0⟩ ∧
    deNan ⟨.inf, .fin 0, .fin 0⟩ = ⟨.inf, .fin 0, .fin 0⟩ ∧
    deNan ⟨.nan, .fin 0, .fin 0⟩ = ⟨.fin 0, .fin 0, .fin 0⟩ := by
  refine ⟨?_, by decide, by decide⟩
  simp [renderAccum, FV3.add, FV3.scale, FV3.map, F32.add, F32.mul, F32.sqrtF]

/-- Real-valued `V3` for the `vector.rs` unit-direction invariant. -/
structure V3R where
  x : ℝ
  y : ℝ
  z : ℝ

/-- Componentwise addition (`Add<V3>`). -/
def V3R.add (a b : V3R) : V3R := ⟨a.x + b.x, a.y + b.y, a.z + b.z⟩

/-- Componentwise subtraction (`Sub<V3>`). -/
def V3R.sub (a b : V3R) : V3R := ⟨a.x - b.x, a.y - b.y, a.z - b.z⟩

/-- `V3::scale`. -/
def V3R.scale (a : V3R) (c : ℝ) : V3R := ⟨a.x * c, a.y * c, a.z * c⟩

/-- `Dim3Dot::dot`. -/
def V3R.dot (a b : V3R) : ℝ := a.x * b.x + a.y * b.y + a.z * b.z

/-- `V3::square_norm`. -/
def V3R.squareNorm (a : V3R) : ℝ := a.dot a

/-- `V3::norm` (`square_norm().sqrt()`), with the real square root. -/
noncomputable def V3R.norm (a : V3R) : ℝ := Real.sqrt a.squareNorm

/-- `V3::normalize` (`self.scale(1.0 / self.norm())`). -/
noncomputable def V3R.normalize (a : V3R) : V3R := a.scale (1 / a.norm)

/-- `V3U` from `src/vector.rs`: the normalized-direction newtype. -/
structure V3U where
  val : V3R

/-- `V3U::new`, the only constructor: it normalizes its argument. -/
noncomputable def V3U.new (v : V3R) : V3U := ⟨v.normalize⟩

/-- `Ray` from `src/vector.rs`: the direction field has type `V3U`. -/
structure RayU where
  origin : V3R
  direction : V3U

/-- `Ray::extend_at` (`origin + direction.scale(scaler)`). -/
def RayU.extendAt (r : RayU) (scaler : ℝ) : V3R :=
  r.origin.add (r.direction.val.scale scaler)

/-- Euclidean distance between two points. -/
noncomputable def V3R.dist3 (a b : V3R) : ℝ := (a.sub b).norm

theorem V3R.squareNorm_nonneg (a : V3R) : 0 ≤ a.squareNorm := by
  unfold V3R.squareNorm V3R.dot
  nlinarith [mul_self_nonneg a.x, mul_self_nonneg a.y, mul_self_nonneg a.z]

theorem V3R.norm_scale (a : V3R) (c : ℝ) : (a.scale c).norm = |c| * a.norm := by
  unfold V3R.norm V3R.squareNorm V3R.dot V3R.scale
  dsimp only
  rw [show a.x * c * (a.x * c) + a.y * c * (a.y * c) + a.z * c * (a.z * c) =
        c ^ 2 * (a.x * a.x + a.y * a.y + a.z * a.z) by ring,
      Real.sqrt_mul (sq_nonneg c), Real.sqrt_sq_eq_abs]

/-- C10: `V3U::new` normalizes, so every `Ray` direction is unit length: for a
vector of nonzero norm the constructed direction has norm exactly 1, and
consequently the point `extend_at(t)` of a ray with that direction lies at
Euclidean distance exactly `t` from the ray origin for every `t ≥ 0` — the hit
parameter measures true distance. -/
theorem v3u_unit_and_param_is_distance (v : V3R) (hv : v.norm ≠ 0) (o : V3R) (t : ℝ)
    (ht : 0 ≤ t) :
    (V3U.new v).val.norm = 1 ∧
    V3R.dist3 (RayU.extendAt ⟨o, V3U.new v⟩ t) o = t := by
  have hnn : 0 ≤ v.norm := Real.sqrt_nonneg _
  have hpos : 0 < v.norm := lt_of_le_of_ne hnn (Ne.symm hv)
  have hunit : (V3U.new v).val.norm = 1 := by
    show (v.scale (1 / v.norm)).norm = 1
    rw [V3R.norm_scale, abs_of_nonneg (by positivity)]
    field_simp
  refine ⟨hunit, ?_⟩
  have hsub : ∀ w : V3R, (o.add w).sub o = w := by
    intro w
    cases w with
    | mk wx wy wz =>
      unfold V3R.add V3R.sub
      simp only [V3R.mk.injEq]
      refine ⟨by ring, by ring, by ring⟩
  show ((o.add ((V3U.new v).val.scale t)).sub o).norm = t
  rw [hsub, V3R.norm_scale, hunit, abs_of_nonneg ht, mul_one]

/-- Witness for C10 at the concrete vector `(0,0,1)` and `t = 2`. -/
theorem v3u_unit_and_param_is_distance_witness :
    (V3U.new ⟨0, 0, 1⟩).val.norm = 1 ∧
    V3R.dist3 (RayU.extendAt ⟨⟨0, 0, 0⟩, V3U.new ⟨0, 0, 1⟩⟩ 2) ⟨0, 0, 0⟩ = 2 :=
  v3u_unit_and_param_is_distance ⟨0, 0, 1⟩
    (by norm_num [V3R.norm, V3R.squareNorm, V3R.dot]) ⟨0, 0, 0⟩ 2 (by norm_num)

/-- The in-order leaf list of a figure: a `BvhNode` decomposes into its two
children's leaves; every other figure is atomic. -/
def Figures.leaves : Figures → List Figures
  | .bvhNode _ left right => left.leaves ++ right.leaves
  | f => [f]

/-- The hit result of a figure with the draw counter fixed at 0 (random-free
figures ignore and preserve the counter). -/
def hit0 (env : Env) (f : Figures) (ray : Ray) (tmin tmax : ℚ) : Option HitRecord :=
  (f.hit env ray tmin tmax 0).1

/-- The closer-of-two-hits combination of `BvhNode::hit` (a tie goes to the
right child, per `if hit_left.at < hit_right.at`). -/
def opH : Option HitRecord → Option HitRecord → Option HitRecord
  | some l, some r => if l.at' < r.at' then some l else some r
  | some l, none => some l
  | none, some r => some r
  | none, none => none

/-- The nearest hit over a list of figures, each tested over the same full
interval, combined by `opH` (the reference value for both the BVH traversal
and the narrowed linear scan). -/
def listMin (env : Env) (ray : Ray) (tmin tmax : ℚ) (gs : List Figures) : Option HitRecord :=
  gs.foldl (fun acc g => opH acc (hit0 env g ray tmin tmax)) none

mutual

/-- Whether a figure consumes no random draws in `hit` (no `ConstantMedium`
anywhere in the tree). -/
def Figures.randFree : Figures → Bool
  | .sphere _ _ => true
  | .xyRect _ _ _ _ _ => true
  | .yzRect _ _ _ _ _ => true
  | .xzRect _ _ _ _ _ => true
  | .flipNormals figure => figure.randFree
  | .cuboid _ _ figure => figure.randFree
  | .translate _ figure => figure.randFree
  | .rotateY _ _ figure _ => figure.randFree
  | .constantMedium _ _ => false
  | .figs figures => figuresListRandFree figures
  | .bvhNode _ left right => left.randFree && right.randFree

/-- `Figures.randFree` over a list. -/
def figuresListRandFree : List Figures → Bool
  | [] => true
  | f :: fs => f.randFree && figuresListRandFree fs

end

/-- Conservativeness of every BVH node's slab test along the tree for the
given ray and interval: whenever a node's cached-box test fails, no leaf
beneath that node hits over the full interval. -/
def consOK (env : Env) (ray : Ray) (tmin tmax : ℚ) : Figures → Bool
  | .bvhNode bbox left right =>
    (bbox.slabHit ray tmin tmax ||
      (left.leaves ++ right.leaves).all fun g => (hit0 env g ray tmin tmax).isNone) &&
    consOK env ray tmin tmax left && consOK env ray tmin tmax right
  | _ => true

set_option maxHeartbeats 1600000 in
theorem consOK_bvhNode (env : Env) (ray : Ray) (tmin tmax : ℚ) (bbox : Aabb)
    (left right : Figures) :
    consOK env ray tmin tmax (.bvhNode bbox left right) =
      ((bbox.slabHit ray tmin tmax ||
        (left.leaves ++ right.leaves).all fun g => (hit0 env g ray tmin tmax).isNone) &&
       consOK env ray tmin tmax left && consOK env ray tmin tmax right) := by
  simp only [consOK]

theorem consOK_xyRect (env : Env) (ray : Ray) (tmin tmax : ℚ) (x0 x1 y0 y1 k : ℚ) :
    consOK env ray tmin tmax (.xyRect x0 x1 y0 y1 k) = true := by
  simp only [consOK]

/-- Two figures are tie-free for the given ray and interval when their
full-interval hits never share the same parameter `t`. -/
def TieFree (env : Env) (ray : Ray) (tmin tmax : ℚ) (g g' : Figures) : Prop :=
  ∀ a b, hit0 env g ray tmin tmax = some a → hit0 env g' ray tmin tmax = some b →
    a.at' ≠ b.at'

/-- Interval-consistency of a figure's hit function, relative to a fixed lower
bound `tmin` and full upper bound `tmax`: a full-interval hit lies below
`tmax`, survives any narrowing of the upper bound that stays strictly above
it, disappears under any narrowing strictly below it, and a full-interval
miss stays a miss under narrowing.  (These hold for the concrete primitives;
for abstract subtrees they are hypotheses.) -/
def ScanCompatible (env : Env) (ray : Ray) (tmin tmax : ℚ) (g : Figures) : Prop :=
  (∀ rec, hit0 env g ray tmin tmax = some rec →
    rec.at' ≤ tmax ∧
    (∀ t, rec.at' < t → t ≤ tmax → hit0 env g ray tmin t = some rec) ∧
    (∀ t, t < rec.at' → t ≤ tmax → hit0 env g ray tmin t = none)) ∧
  (hit0 env g ray tmin tmax = none → ∀ t, t ≤ tmax → hit0 env g ray tmin t = none)

theorem opH_none_left (b : Option HitRecord) : opH none b = b := by cases b <;> rfl

theorem opH_none_right (a : Option HitRecord) : opH a none = a := by cases a <;> rfl

theorem opH_assoc (a b c : Option HitRecord) : opH (opH a b) c = opH a (opH b c) := by
  cases a with
  | none => rw [opH_none_left, opH_none_left]
  | some x =>
    cases b with
    | none => rw [opH_none_right, opH_none_left]
    | some y =>
      cases c with
      | none => rw [opH_none_right, opH_none_right]
      | some z =>
        simp only [opH]
        by_cases h1 : x.at' < y.at' <;> by_cases h2 : y.at' < z.at' <;>
          by_cases h3 : x.at' < z.at' <;>
          simp only [opH, h1, h2, h3, if_true, if_false] <;>
          first | rfl | linarith | (exfalso; linarith)

theorem opH_comm_of_ne (hx hy : Option HitRecord)
    (hne : ∀ a b, hx = some a → hy = some b → a.at' ≠ b.at') : opH hx hy = opH hy hx := by
  cases hx with
  | none => rw [opH_none_left, opH_none_right]
  | some x =>
    cases hy with
    | none => rw [opH_none_left, opH_none_right]
    | some y =>
      have h := hne x y rfl rfl
      simp only [opH]
      split_ifs <;> first | rfl | (exfalso; apply h; linarith)

theorem foldl_opH_init (env : Env) (ray : Ray) (tmin tmax : ℚ) (gs : List Figures)
    (a : Option HitRecord) :
    gs.foldl (fun acc g => opH acc (hit0 env g ray tmin tmax)) a =
      opH a (listMin env ray tmin tmax gs) := by
  induction gs generalizing a with
  | nil => simp [listMin, opH_none_right]
  | cons g gs ih =>
    simp only [listMin, List.foldl_cons] at *
    rw [ih, ih (opH none (hit0 env g ray tmin tmax)), opH_none_left, opH_assoc]

theorem listMin_append (env : Env) (ray : Ray) (tmin tmax : ℚ) (xs ys : List Figures) :
    listMin env ray tmin tmax (xs ++ ys) =
      opH (listMin env ray tmin tmax xs) (listMin env ray tmin tmax ys) := by
  simp only [listMin, List.foldl_append]
  rw [foldl_opH_init]
  rfl

theorem listMin_cons (env : Env) (ray : Ray) (tmin tmax : ℚ) (g : Figures)
    (gs : List Figures) :
    listMin env ray tmin tmax (g :: gs) =
      opH (hit0 env g ray tmin tmax) (listMin env ray tmin tmax gs) := by
  simp only [listMin, List.foldl_cons, opH_none_left]
  exact foldl_opH_init env ray tmin tmax gs _

theorem listMin_all_none (env : Env) (ray : Ray) (tmin tmax : ℚ) (gs : List Figures)
    (h : ∀ g ∈ gs, hit0 env g ray tmin tmax = none) :
    listMin env ray tmin tmax gs = none := by
  induction gs with
  | nil => rfl
  | cons g gs ih =>
    have hg := h g (List.mem_cons_self g gs)
    simp only [listMin, List.foldl_cons, opH_none_left, hg, opH_none_right]
    exact ih fun g' hg' => h g' (List.mem_cons_of_mem g hg')

theorem tieFree_symm (env : Env) (ray : Ray) (tmin tmax : ℚ) :
    Symmetric (TieFree env ray tmin tmax) :=
  fun _ _ h a b ha hb => (h b a hb ha).symm

theorem listMin_perm (env : Env) (ray : Ray) (tmin tmax : ℚ) {gs gs' : List Figures}
    (hperm : gs.Perm gs') (hp : List.Pairwise (TieFree env ray tmin tmax) gs) :
    listMin env ray tmin tmax gs = listMin env ray tmin tmax gs' := by
  refine List.Perm.foldl_eq' hperm ?_ none
  intro x hx y hy z
  by_cases hxy : x = y
  · subst hxy; rfl
  · rw [opH_assoc, opH_assoc,
        opH_comm_of_ne _ _ (hp.forall (tieFree_symm env ray tmin tmax) hx hy hxy)]

theorem listMin_flatten (env : Env) (ray : Ray) (tmin tmax : ℚ) (gs : List Figures)
    (h : ∀ g ∈ gs, hit0 env g ray tmin tmax = listMin env ray tmin tmax g.leaves) :
    listMin env ray tmin tmax (gs.flatMap Figures.leaves) = listMin env ray tmin tmax gs := by
  induction gs with
  | nil => rfl
  | cons g gs ih =>
    have hg := h g (List.mem_cons_self g gs)
    simp only [List.flatMap_cons]
    rw [listMin_append, hg.symm]
    show opH (hit0 env g ray tmin tmax) _ = _
    rw [ih fun g' hg' => h g' (List.mem_cons_of_mem g hg'), listMin_cons]

theorem figuresListRandFree_mem : ∀ (gs : List Figures), figuresListRandFree gs = true →
    ∀ g ∈ gs, g.randFree = true := by
  intro gs
  induction gs with
  | nil => intro _ g hg; cases hg
  | cons f fs ih =>
    intro h g hg
    rw [figuresListRandFree, Bool.and_eq_true] at h
    rcases List.mem_cons.mp hg with rfl | hg'
    · exact h.1
    · exact ih h.2 g hg'

theorem hit_counter_aux (env : Env) :
    ∀ (N : ℕ) (f : Figures), sizeOf f < N → f.randFree = true →
      ∀ (ray : Ray) (tmin tmax : ℚ) (n : ℕ),
        f.hit env ray tmin tmax n = ((f.hit env ray tmin tmax 0).1, n) := by
  intro N
  induction N with
  | zero => intro f hf; omega
  | succ N ih =>
    intro f hsize hrf ray tmin tmax n
    cases f with
    | sphere center radius => simp only [Figures.hit]; split_ifs <;> rfl
    | xyRect x0 x1 y0 y1 k => simp only [Figures.hit]; split_ifs <;> rfl
    | yzRect y0 y1 z0 z1 k => simp only [Figures.hit]; split_ifs <;> rfl
    | xzRect x0 x1 z0 z1 k => simp only [Figures.hit]; split_ifs <;> rfl
    | flipNormals figure =>
      have hrfc : figure.randFree = true := by simpa [Figures.randFree] using hrf
      have hsc : sizeOf figure < N := by
        have := Figures.flipNormals.sizeOf_spec figure; omega
      simp only [Figures.hit]
      rcases h0 : Figures.hit env figure ray tmin tmax 0 with ⟨x0v, m0⟩
      have hn := ih figure hsc hrfc ray tmin tmax n
      rw [h0] at hn
      rw [hn]
      cases x0v <;> rfl
    | cuboid pmin pmax figure =>
      have hrfc : figure.randFree = true := by simpa [Figures.randFree] using hrf
      have hsc : sizeOf figure < N := by
        have := Figures.cuboid.sizeOf_spec pmin pmax figure; omega
      simp only [Figures.hit]
      exact ih figure hsc hrfc ray tmin tmax n
    | translate offset figure =>
      have hrfc : figure.randFree = true := by simpa [Figures.randFree] using hrf
      have hsc : sizeOf figure < N := by
        have := Figures.translate.sizeOf_spec offset figure; omega
      simp only [Figures.hit]
      rcases h0 : Figures.hit env figure ⟨ray.origin.sub offset, ray.direction⟩ tmin tmax 0
        with ⟨x0v, m0⟩
      have hn := ih figure hsc hrfc ⟨ray.origin.sub offset, ray.direction⟩ tmin tmax n
      rw [h0] at hn
      rw [hn]
      cases x0v <;> rfl
    | rotateY sinTheta cosTheta figure bbox =>
      have hrfc : figure.randFree = true := by simpa [Figures.randFree] using hrf
      have hsc : sizeOf figure < N := by
        have := Figures.rotateY.sizeOf_spec sinTheta cosTheta figure bbox; omega
      simp only [Figures.hit]
      rcases h0 : Figures.hit env figure
          ⟨⟨cosTheta * ray.origin.x - sinTheta * ray.origin.z, ray.origin.y,
            sinTheta * ray.origin.x + cosTheta * ray.origin.z⟩,
           ⟨cosTheta * ray.direction.x - sinTheta * ray.direction.z, ray.direction.y,
            sinTheta * ray.direction.x + cosTheta * ray.direction.z⟩⟩
          tmin tmax 0 with ⟨x0v, m0⟩
      have hn := ih figure hsc hrfc
          ⟨⟨cosTheta * ray.origin.x - sinTheta * ray.origin.z, ray.origin.y,
            sinTheta * ray.origin.x + cosTheta * ray.origin.z⟩,
           ⟨cosTheta * ray.direction.x - sinTheta * ray.direction.z, ray.direction.y,
            sinTheta * ray.direction.x + cosTheta * ray.direction.z⟩⟩
          tmin tmax n
      rw [h0] at hn
      rw [hn]
      cases x0v <;> rfl
    | constantMedium density boundary => simp [Figures.randFree] at hrf
    | bvhNode bbox left right =>
      have hrfl : left.randFree = true ∧ right.randFree = true := by
        have := hrf
        rw [Figures.randFree, Bool.and_eq_true] at this
        exact this
      have hsl : sizeOf left < N := by
        have := Figures.bvhNode.sizeOf_spec bbox left right; omega
      have hsr : sizeOf right < N := by
        have := Figures.bvhNode.sizeOf_spec bbox left right; omega
      simp only [Figures.hit]
      split_ifs with hbb
      · rcases hl0 : Figures.hit env left ray tmin tmax 0 with ⟨xl, ml⟩
        rcases hr0 : Figures.hit env right ray tmin tmax 0 with ⟨xr, mr⟩
        have hml : ml = 0 := by
          have h00 := ih left hsl hrfl.1 ray tmin tmax 0
          rw [hl0] at h00
          exact (Prod.mk.injEq _ _ _ _ |>.mp h00).2
        have hmr : mr = 0 := by
          have h00 := ih right hsr hrfl.2 ray tmin tmax 0
          rw [hr0] at h00
          exact (Prod.mk.injEq _ _ _ _ |>.mp h00).2
        subst hml hmr
        have hln : Figures.hit env left ray tmin tmax n = (xl, n) := by
          rw [ih left hsl hrfl.1 ray tmin tmax n, hl0]
        have hrn : ∀ m, Figures.hit env right ray tmin tmax m = (xr, m) := fun m => by
          rw [ih right hsr hrfl.2 ray tmin tmax m, hr0]
        rw [hln]
        cases xl <;> cases xr <;> simp [hrn]
      · rfl
    | figs figures =>
      have hmem : ∀ g ∈ figures, g.randFree = true ∧ sizeOf g < N := by
        intro g hg
        refine ⟨figuresListRandFree_mem figures (by simpa [Figures.randFree] using hrf) g hg, ?_⟩
        have h1 := List.sizeOf_lt_of_mem hg
        have h2 := Figures.figs.sizeOf_spec figures
        omega
      simp only [Figures.hit]
      -- inner induction over the scanned list
      have hscan : ∀ (gs : List Figures), (∀ g ∈ gs, g.randFree = true ∧ sizeOf g < N) →
          ∀ (closest : ℚ) (record : Option HitRecord) (n' : ℕ),
            Figures.hitScan env gs ray tmin closest record n' =
              ((Figures.hitScan env gs ray tmin closest record 0).1, n') := by
        intro gs
        induction gs with
        | nil => intro _ closest record n'; rfl
        | cons g rest ihl =>
          intro hm closest record n'
          obtain ⟨hgrf, hgsz⟩ := hm g (List.mem_cons_self g rest)
          have hrest : ∀ g' ∈ rest, g'.randFree = true ∧ sizeOf g' < N :=
            fun g' hg' => hm g' (List.mem_cons_of_mem g hg')
          simp only [Figures.hitScan]
          rcases hg0 : Figures.hit env g ray tmin closest 0 with ⟨xg, mg⟩
          have hmg : mg = 0 := by
            have h00 := ih g hgsz hgrf ray tmin closest 0
            rw [hg0] at h00
            exact (Prod.mk.injEq _ _ _ _ |>.mp h00).2
          subst hmg
          have hgn := ih g hgsz hgrf ray tmin closest n'
          rw [hg0] at hgn
          rw [hgn]
          cases xg with
          | none => exact ihl hrest closest record n'
          | some recg => exact ihl hrest recg.at' (some recg) n'
      exact hscan figures hmem tmax none n

theorem hit_counter (env : Env) (f : Figures) (hrf : f.randFree = true) (ray : Ray)
    (tmin tmax : ℚ) (n : ℕ) :
    f.hit env ray tmin tmax n = (hit0 env f ray tmin tmax, n) :=
  hit_counter_aux env (sizeOf f + 1) f (by omega) hrf ray tmin tmax n

theorem hit_bvhNode_eval (env : Env) (bbox : Aabb) (left right : Figures) (ray : Ray)
    (tmin tmax : ℚ) (hrfl : left.randFree = true) (hrfr : right.randFree = true) :
    hit0 env (.bvhNode bbox left right) ray tmin tmax =
      if bbox.slabHit ray tmin tmax then
        opH (hit0 env left ray tmin tmax) (hit0 env right ray tmin tmax)
      else none := by
  show (Figures.hit env (.bvhNode bbox left right) ray tmin tmax 0).1 = _
  simp only [Figures.hit]
  split_ifs with hbb
  · rw [hit_counter env left hrfl ray tmin tmax 0]
    cases hxl : hit0 env left ray tmin tmax with
    | none =>
      dsimp only
      rw [hit_counter env right hrfr ray tmin tmax 0]
      cases hxr : hit0 env right ray tmin tmax <;> simp [opH]
    | some recl =>
      dsimp only
      rw [hit_counter env right hrfr ray tmin tmax 0]
      cases hxr : hit0 env right ray tmin tmax <;> simp [opH]
  · rfl

theorem hit0_eq_listMin_leaves (env : Env) (ray : Ray) (tmin tmax : ℚ) :
    ∀ (N : ℕ) (f : Figures), sizeOf f < N → f.randFree = true →
      consOK env ray tmin tmax f = true →
      hit0 env f ray tmin tmax = listMin env ray tmin tmax f.leaves := by
  intro N
  induction N with
  | zero => intro f hf; omega
  | succ N ih =>
    intro f hsize hrf hcons
    cases f
    case bvhNode bbox left right =>
      have hszl : sizeOf left < N := by
        have := Figures.bvhNode.sizeOf_spec bbox left right; omega
      have hszr : sizeOf right < N := by
        have := Figures.bvhNode.sizeOf_spec bbox left right; omega
      have hrfl : left.randFree = true ∧ right.randFree = true := by
        have h := hrf
        rw [Figures.randFree, Bool.and_eq_true] at h
        exact h
      have hc : (bbox.slabHit ray tmin tmax ||
            (left.leaves ++ right.leaves).all
              (fun g => (hit0 env g ray tmin tmax).isNone)) = true ∧
          consOK env ray tmin tmax left = true ∧ consOK env ray tmin tmax right = true := by
        have h := hcons
        rw [consOK_bvhNode, Bool.and_eq_true, Bool.and_eq_true] at h
        exact ⟨h.1.1, h.1.2, h.2⟩
      have hL := ih left hszl hrfl.1 hc.2.1
      have hR := ih right hszr hrfl.2 hc.2.2
      have hleaves : (Figures.bvhNode bbox left right).leaves =
          left.leaves ++ right.leaves := by
        simp [Figures.leaves]
      rw [hleaves, listMin_append, ← hL, ← hR,
          hit_bvhNode_eval env bbox left right ray tmin tmax hrfl.1 hrfl.2]
      split_ifs with hbb
      · rfl
      · have hall : (left.leaves ++ right.leaves).all
            (fun g => (hit0 env g ray tmin tmax).isNone) = true := by
          rcases Bool.or_eq_true _ _ |>.mp hc.1 with h | h
          · exact absurd h hbb
          · exact h
        have hnone : ∀ g ∈ left.leaves ++ right.leaves, hit0 env g ray tmin tmax = none := by
          intro g hg
          exact Option.isNone_iff_eq_none.mp (List.all_eq_true.mp hall g hg)
        have hLn : hit0 env left ray tmin tmax = none := by
          rw [hL]
          exact listMin_all_none env ray tmin tmax _
            fun g hg => hnone g (List.mem_append_left _ hg)
        have hRn : hit0 env right ray tmin tmax = none := by
          rw [hR]
          exact listMin_all_none env ray tmin tmax _
            fun g hg => hnone g (List.mem_append_right _ hg)
        rw [hLn, hRn]
        rfl
    all_goals
      simp only [Figures.leaves]
      rw [listMin_cons]
      simp only [listMin, List.foldl_nil, opH_none_right]

theorem hitScan_eq_foldl (env : Env) (ray : Ray) (tmin tmax : ℚ) :
    ∀ (gs : List Figures) (acc : Option HitRecord) (closest : ℚ),
      (∀ g ∈ gs, ScanCompatible env ray tmin tmax g) →
      figuresListRandFree gs = true →
      ((acc = none ∧ closest = tmax) ∨
        (∃ rec, acc = some rec ∧ closest = rec.at' ∧ rec.at' ≤ tmax)) →
      (∀ g ∈ gs, ∀ rec b, acc = some rec → hit0 env g ray tmin tmax = some b →
        rec.at' ≠ b.at') →
      List.Pairwise (TieFree env ray tmin tmax) gs →
      (Figures.hitScan env gs ray tmin closest acc 0).1 =
        gs.foldl (fun a g => opH a (hit0 env g ray tmin tmax)) acc := by
  intro gs
  induction gs with
  | nil => intro acc closest _ _ _ _ _; rfl
  | cons g rest ih =>
    intro acc closest hcompat hrand hinv hacc hpair
    have hgc := hcompat g (List.mem_cons_self g rest)
    have hgrf : g.randFree = true := by
      rw [figuresListRandFree, Bool.and_eq_true] at hrand
      exact hrand.1
    have hrestrand : figuresListRandFree rest = true := by
      rw [figuresListRandFree, Bool.and_eq_true] at hrand
      exact hrand.2
    have hrestcompat : ∀ g' ∈ rest, ScanCompatible env ray tmin tmax g' :=
      fun g' hg' => hcompat g' (List.mem_cons_of_mem g hg')
    obtain ⟨hhead, hptail⟩ := List.pairwise_cons.mp hpair
    simp only [Figures.hitScan]
    rw [hit_counter env g hgrf ray tmin closest 0, List.foldl_cons]
    cases hfull : hit0 env g ray tmin tmax with
    | none =>
      have hnar : hit0 env g ray tmin closest = none := by
        rcases hinv with ⟨ha, hc⟩ | ⟨rec, ha, hc, hle⟩
        · rw [hc]; exact hfull
        · rw [hc]; exact hgc.2 hfull rec.at' hle
      rw [hnar]
      dsimp only
      rw [opH_none_right]
      exact ih acc closest hrestcompat hrestrand hinv
        (fun g' hg' rec b ha hb => hacc g' (List.mem_cons_of_mem g hg') rec b ha hb) hptail
    | some b =>
      have hble : b.at' ≤ tmax := (hgc.1 b hfull).1
      rcases hinv with ⟨ha, hc⟩ | ⟨rec, ha, hc, hle⟩
      · subst ha
        rw [hc, hfull]
        dsimp only
        rw [opH_none_left]
        exact ih (some b) b.at' hrestcompat hrestrand
          (Or.inr ⟨b, rfl, rfl, hble⟩)
          (fun g' hg' rec' b' ha' hb' => by
            cases ha'
            exact hhead g' hg' b b' hfull hb')
          hptail
      · subst ha
        rw [hc]
        obtain ⟨_, hstab, hkill⟩ := hgc.1 b hfull
        rcases lt_trichotomy b.at' rec.at' with hlt | heq | hgt
        · rw [hstab rec.at' hlt (hc ▸ hle)]
          dsimp only
          rw [show opH (some rec) (some b) = some b from by
                simp only [opH, if_neg (by linarith : ¬ rec.at' < b.at')]]
          exact ih (some b) b.at' hrestcompat hrestrand
            (Or.inr ⟨b, rfl, rfl, hble⟩)
            (fun g' hg' rec' b' ha' hb' => by
              cases ha'
              exact hhead g' hg' b b' hfull hb')
            hptail
        · exact absurd heq.symm (hacc g (List.mem_cons_self g rest) rec b rfl hfull)
        · rw [hkill rec.at' hgt (hc ▸ hle)]
          dsimp only
          rw [show opH (some rec) (some b) = some rec from by
                simp only [opH, if_pos hgt]]
          exact ih (some rec) rec.at' hrestcompat hrestrand
            (Or.inr ⟨rec, rfl, rfl, hle⟩)
            (fun g' hg' rec' b' ha' hb' => by
              cases ha'
              exact hacc g' (List.mem_cons_of_mem g hg') rec b' rfl hb')
            hptail

theorem figs_hit_eq_listMin (env : Env) (ray : Ray) (tmin tmax : ℚ) (gs : List Figures)
    (hcompat : ∀ g ∈ gs, ScanCompatible env ray tmin tmax g)
    (hrand : figuresListRandFree gs = true)
    (hpair : List.Pairwise (TieFree env ray tmin tmax) gs) :
    hit0 env (.figs gs) ray tmin tmax = listMin env ray tmin tmax gs := by
  show (Figures.hit env (.figs gs) ray tmin tmax 0).1 = _
  simp only [Figures.hit]
  exact hitScan_eq_foldl env ray tmin tmax gs none tmax hcompat hrand (Or.inl ⟨rfl, rfl⟩)
    (fun g hg rec b ha hb => by cases ha) hpair

theorem opH_idem (a : Option HitRecord) : opH a a = a := by
  cases a with
  | none => rfl
  | some x => simp [opH]

theorem figuresListRandFree_of_mem : ∀ (gs : List Figures),
    (∀ g ∈ gs, g.randFree = true) → figuresListRandFree gs = true := by
  intro gs
  induction gs with
  | nil => intro _; rfl
  | cons f fs ih =>
    intro h
    rw [figuresListRandFree, Bool.and_eq_true]
    exact ⟨h f (List.mem_cons_self f fs),
           ih fun g hg => h g (List.mem_cons_of_mem f hg)⟩

theorem bvh_build_randFree (env : Env) : ∀ N : ℕ,
    (∀ (figures : List Figures) (n : ℕ) (t0 t1 : ℚ) (node : Figures) (n' : ℕ),
      figures.length < N → bvhNew env figures n t0 t1 = .ok (node, n') →
      (∀ g ∈ figures, g.randFree = true) → node.randFree = true) ∧
    (∀ (sorted : List Figures) (n : ℕ) (t0 t1 : ℚ) (node : Figures) (n' : ℕ),
      sorted.length < N → bvhSplit env sorted n t0 t1 = .ok (node, n') →
      (∀ g ∈ sorted, g.randFree = true) → node.randFree = true) := by
  intro N
  induction N with
  | zero => exact ⟨fun figures n t0 t1 node n' h => by omega,
                   fun sorted n t0 t1 node n' h => by omega⟩
  | succ N ih =>
    have hsplit : ∀ (sorted : List Figures) (n : ℕ) (t0 t1 : ℚ) (node : Figures) (n' : ℕ),
        sorted.length < N + 1 → bvhSplit env sorted n t0 t1 = .ok (node, n') →
        (∀ g ∈ sorted, g.randFree = true) → node.randFree = true := by
      intro sorted n t0 t1 node n' hlen hbuild hmem
      rcases sorted with _ | ⟨f, _ | ⟨g, _ | ⟨c, tl⟩⟩⟩
      · rw [bvhSplit] at hbuild; cases hbuild
      · rw [bvhSplit] at hbuild
        rcases hbf : f.boundingBox t0 t1 with e | ob
        · rw [hbf] at hbuild; cases hbuild
        · rcases ob with _ | bb <;> rw [hbf] at hbuild
          · cases hbuild
          · cases hbuild
            have hf := hmem f (List.mem_cons_self f [])
            rw [Figures.randFree, Bool.and_eq_true]
            exact ⟨hf, hf⟩
      · rw [bvhSplit] at hbuild
        rcases hbf : f.boundingBox t0 t1 with e | ob
        · rw [hbf] at hbuild; cases hbuild
        · rcases hbg : g.boundingBox t0 t1 with e | obg
          · rw [hbf, hbg] at hbuild
            rcases ob with _ | bbf <;> cases hbuild
          · rcases ob with _ | bbf <;> rcases obg with _ | bbg <;> rw [hbf, hbg] at hbuild
            · cases hbuild
            · cases hbuild
            · cases hbuild
            · cases hbuild
              rw [Figures.randFree, Bool.and_eq_true]
              exact ⟨hmem f (List.mem_cons_self f [g]),
                     hmem g (List.mem_cons_of_mem f (List.mem_cons_self g []))⟩
      · rw [bvhSplit] at hbuild
        rcases hbl : bvhNew env ((f :: g :: c :: tl).take ((f :: g :: c :: tl).length / 2))
            (n + 1) t0 t1 with e | ⟨left, n1⟩ <;> rw [hbl] at hbuild
        · cases hbuild
        · dsimp only at hbuild
          rcases hbr : bvhNew env
              ((f :: g :: c :: tl).drop ((f :: g :: c :: tl).length / 2)) n1 t0 t1
            with e | ⟨right, n2⟩ <;> rw [hbr] at hbuild
          · cases hbuild
          · dsimp only at hbuild
            have hleft : left.randFree = true := by
              refine ih.1 _ (n + 1) t0 t1 left n1 ?_ hbl
                (fun g' hg' => hmem g' (List.take_subset _ _ hg'))
              simp only [List.length_take, List.length_cons] at *
              omega
            have hright : right.randFree = true := by
              refine ih.1 _ n1 t0 t1 right n2 ?_ hbr
                (fun g' hg' => hmem g' (List.drop_subset _ _ hg'))
              simp only [List.length_drop, List.length_cons] at *
              omega
            rcases hbbl : left.boundingBox t0 t1 with e | obl <;> rw [hbbl] at hbuild
            · cases hbuild
            · rcases hbbr : right.boundingBox t0 t1 with e | obr <;> rw [hbbr] at hbuild
              · rcases obl with _ | bbl <;> cases hbuild
              · rcases obl with _ | bbl <;> rcases obr with _ | bbr
                · cases hbuild
                · cases hbuild
                · cases hbuild
                · cases hbuild
                  rw [Figures.randFree, Bool.and_eq_true]
                  exact ⟨hleft, hright⟩
    refine ⟨?_, hsplit⟩
    intro figures n t0 t1 node n' hlen hbuild hmem
    rw [bvhNew] at hbuild
    by_cases hempty : figures.isEmpty = true
    · rw [if_pos hempty] at hbuild; cases hbuild
    · rw [if_neg hempty] at hbuild
      by_cases hbox : figures.all boxOk = true
      · rw [if_neg (not_not_intro hbox)] at hbuild
        refine hsplit _ n t0 t1 node n' ?_ hbuild ?_
        · rw [length_sortByAxis]; exact hlen
        · exact fun g hg =>
            hmem g ((perm_sortByAxis ⌊(3 : ℚ) * env.rand n⌋ figures).mem_iff.mp hg)
      · rw [if_pos hbox] at hbuild; cases hbuild

theorem bvh_build_listMin (env : Env) (ray : Ray) (tmin tmax : ℚ) : ∀ N : ℕ,
    (∀ (figures : List Figures) (n : ℕ) (t0 t1 : ℚ) (node : Figures) (n' : ℕ),
      figures.length < N → bvhNew env figures n t0 t1 = .ok (node, n') →
      List.Pairwise (TieFree env ray tmin tmax) (figures.flatMap Figures.leaves) →
      listMin env ray tmin tmax node.leaves =
        listMin env ray tmin tmax (figures.flatMap Figures.leaves)) ∧
    (∀ (sorted : List Figures) (n : ℕ) (t0 t1 : ℚ) (node : Figures) (n' : ℕ),
      sorted.length < N → bvhSplit env sorted n t0 t1 = .ok (node, n') →
      List.Pairwise (TieFree env ray tmin tmax) (sorted.flatMap Figures.leaves) →
      listMin env ray tmin tmax node.leaves =
        listMin env ray tmin tmax (sorted.flatMap Figures.leaves)) := by
  intro N
  induction N with
  | zero => exact ⟨fun figures n t0 t1 node n' h => by omega,
                   fun sorted n t0 t1 node n' h => by omega⟩
  | succ N ih =>
    have hsplit : ∀ (sorted : List Figures) (n : ℕ) (t0 t1 : ℚ) (node : Figures) (n' : ℕ),
        sorted.length < N + 1 → bvhSplit env sorted n t0 t1 = .ok (node, n') →
        List.Pairwise (TieFree env ray tmin tmax) (sorted.flatMap Figures.leaves) →
        listMin env ray tmin tmax node.leaves =
          listMin env ray tmin tmax (sorted.flatMap Figures.leaves) := by
      intro sorted n t0 t1 node n' hlen hbuild hpair
      rcases sorted with _ | ⟨f, _ | ⟨g, _ | ⟨c, tl⟩⟩⟩
      · rw [bvhSplit] at hbuild; cases hbuild
      · rw [bvhSplit] at hbuild
        rcases hbf : f.boundingBox t0 t1 with e | ob
        · rw [hbf] at hbuild; cases hbuild
        · rcases ob with _ | bb <;> rw [hbf] at hbuild
          · cases hbuild
          · cases hbuild
            have hl : (Figures.bvhNode (bb.surround bb) f f).leaves =
                f.leaves ++ f.leaves := by simp [Figures.leaves]
            have hr : ([f].flatMap Figures.leaves) = f.leaves := by simp
            rw [hl, hr, listMin_append, opH_idem]
      · rw [bvhSplit] at hbuild
        rcases hbf : f.boundingBox t0 t1 with e | ob
        · rw [hbf] at hbuild; cases hbuild
        · rcases hbg : g.boundingBox t0 t1 with e | obg
          · rw [hbf, hbg] at hbuild
            rcases ob with _ | bbf <;> cases hbuild
          · rcases ob with _ | bbf <;> rcases obg with _ | bbg <;> rw [hbf, hbg] at hbuild
            · cases hbuild
            · cases hbuild
            · cases hbuild
            · cases hbuild
              have hl : (Figures.bvhNode (bbf.surround bbg) f g).leaves =
                  f.leaves ++ g.leaves := by simp [Figures.leaves]
              have hr : ([f, g].flatMap Figures.leaves) = f.leaves ++ g.leaves := by simp
              rw [hl, hr]
      · rw [bvhSplit] at hbuild
        rcases hbl : bvhNew env ((f :: g :: c :: tl).take ((f :: g :: c :: tl).length / 2))
            (n + 1) t0 t1 with e | ⟨left, n1⟩ <;> rw [hbl] at hbuild
        · cases hbuild
        · dsimp only at hbuild
          rcases hbr : bvhNew env
              ((f :: g :: c :: tl).drop ((f :: g :: c :: tl).length / 2)) n1 t0 t1
            with e | ⟨right, n2⟩ <;> rw [hbr] at hbuild
          · cases hbuild
          · dsimp only at hbuild
            have hsplitlist : (f :: g :: c :: tl).take ((f :: g :: c :: tl).length / 2) ++
                (f :: g :: c :: tl).drop ((f :: g :: c :: tl).length / 2) =
                  f :: g :: c :: tl := List.take_append_drop _ _
            have hpairsplit : List.Pairwise (TieFree env ray tmin tmax)
                (((f :: g :: c :: tl).take ((f :: g :: c :: tl).length / 2)).flatMap
                    Figures.leaves) ∧
                List.Pairwise (TieFree env ray tmin tmax)
                (((f :: g :: c :: tl).drop ((f :: g :: c :: tl).length / 2)).flatMap
                    Figures.leaves) := by
              have h := hpair
              rw [← hsplitlist, List.flatMap_append, List.pairwise_append] at h
              exact ⟨h.1, h.2.1⟩
            have hleft := ih.1 _ (n + 1) t0 t1 left n1
              (by simp only [List.length_take, List.length_cons] at *; omega)
              hbl hpairsplit.1
            have hright := ih.1 _ n1 t0 t1 right n2
              (by simp only [List.length_drop, List.length_cons] at *; omega)
              hbr hpairsplit.2
            rcases hbbl : left.boundingBox t0 t1 with e | obl <;> rw [hbbl] at hbuild
            · cases hbuild
            · rcases hbbr : right.boundingBox t0 t1 with e | obr <;> rw [hbbr] at hbuild
              · rcases obl with _ | bbl <;> cases hbuild
              · rcases obl with _ | bbl <;> rcases obr with _ | bbr
                · cases hbuild
                · cases hbuild
                · cases hbuild
                · cases hbuild
                  have hl : (Figures.bvhNode (bbl.surround bbr) left right).leaves =
                      left.leaves ++ right.leaves := by simp [Figures.leaves]
                  rw [hl, listMin_append, hleft, hright, ← listMin_append,
                      ← List.flatMap_append, hsplitlist]
    refine ⟨?_, hsplit⟩
    intro figures n t0 t1 node n' hlen hbuild hpair
    rw [bvhNew] at hbuild
    by_cases hempty : figures.isEmpty = true
    · rw [if_pos hempty] at hbuild; cases hbuild
    · rw [if_neg hempty] at hbuild
      by_cases hbox : figures.all boxOk = true
      · rw [if_neg (not_not_intro hbox)] at hbuild
        have hpermflat : ((sortByAxis ⌊(3 : ℚ) * env.rand n⌋ figures).flatMap
            Figures.leaves).Perm (figures.flatMap Figures.leaves) :=
          (perm_sortByAxis ⌊(3 : ℚ) * env.rand n⌋ figures).flatMap_right Figures.leaves
        have hpairsort : List.Pairwise (TieFree env ray tmin tmax)
            ((sortByAxis ⌊(3 : ℚ) * env.rand n⌋ figures).flatMap Figures.leaves) :=
          (List.Perm.pairwise_iff (fun h => tieFree_symm env ray tmin tmax h)
            hpermflat).mpr hpair
        have hQ := hsplit _ n t0 t1 node n'
          (by rw [length_sortByAxis]; exact hlen) hbuild hpairsort
        rw [hQ]
        exact listMin_perm env ray tmin tmax hpermflat hpairsort
      · rw [if_pos hbox] at hbuild; cases hbuild

/-- C1 (amended): for a `BvhNode` built by `BvhNode::new` over a list of
deterministic primitives (no `ConstantMedium`), and a ray/interval for which
(i) every node's cached-box slab test is conservative (a failing test means no
primitive beneath that node hits over the full interval) — which rays exactly
grazing a box edge can violate — (ii) the primitives' hit functions are
interval-consistent under narrowing, and (iii) no two primitives hit at the
same parameter (as non-overlapping bounding boxes ensure), `BvhNode::hit`
returns the same closest intersection (same record, same `t`) as the
brute-force `Figures::Figures` linear scan over the original list. -/
theorem bvhNode_hit_eq_scan (env : Env) (figures : List Figures) (n : ℕ) (time0 time1 : ℚ)
    (node : Figures) (n' : ℕ) (ray : Ray) (tmin tmax : ℚ)
    (hbuild : bvhNew env figures n time0 time1 = .ok (node, n'))
    (hrand : figuresListRandFree figures = true)
    (hconsN : consOK env ray tmin tmax node = true)
    (hconsF : ∀ f ∈ figures, consOK env ray tmin tmax f = true)
    (hcompat : ∀ f ∈ figures, ScanCompatible env ray tmin tmax f)
    (hpairLeaf : List.Pairwise (TieFree env ray tmin tmax) (figures.flatMap Figures.leaves))
    (hpairAtomic : List.Pairwise (TieFree env ray tmin tmax) figures) :
    hit0 env node ray tmin tmax = hit0 env (.figs figures) ray tmin tmax := by
  have hrandmem : ∀ f ∈ figures, f.randFree = true := figuresListRandFree_mem figures hrand
  have hnodeRF : node.randFree = true :=
    (bvh_build_randFree env (figures.length + 1)).1 figures n time0 time1 node n'
      (by omega) hbuild hrandmem
  have h1 : hit0 env node ray tmin tmax = listMin env ray tmin tmax node.leaves :=
    hit0_eq_listMin_leaves env ray tmin tmax (sizeOf node + 1) node (by omega) hnodeRF hconsN
  have h2 : listMin env ray tmin tmax node.leaves =
      listMin env ray tmin tmax (figures.flatMap Figures.leaves) :=
    (bvh_build_listMin env ray tmin tmax (figures.length + 1)).1 figures n time0 time1 node n'
      (by omega) hbuild hpairLeaf
  have h3 : listMin env ray tmin tmax (figures.flatMap Figures.leaves) =
      listMin env ray tmin tmax figures :=
    listMin_flatten env ray tmin tmax figures
      (fun f hf => hit0_eq_listMin_leaves env ray tmin tmax (sizeOf f + 1) f (by omega)
        (hrandmem f hf) (hconsF f hf))
  have h4 : hit0 env (.figs figures) ray tmin tmax = listMin env ray tmin tmax figures :=
    figs_hit_eq_listMin env ray tmin tmax figures hcompat hrand hpairAtomic
  rw [h1, h2, h3, ← h4]

/-- The BVH node that `BvhNode::new` builds over the two disjoint rectangles
of the C1 counterexample. -/
def c1Node : Figures :=
  .bvhNode ⟨⟨0, 0, -(1/10000)⟩, ⟨1, 1, 11/2 + 1/10000⟩⟩
    (.xyRect 0 1 0 1 0) (.xyRect (1/5) (4/5) (1/5) (4/5) (11/2))

/-- C1 counterexample: over the two rectangles `XYRect([0,1]², k=0)` and
`XYRect([0.2,0.8]², k=5.5)` — whose bounding boxes are disjoint — the built
BVH node rejects the ray from `(0,-1,-1)` along `(1,1,1)` (the ray exits the
X slab of the cached box exactly where it enters the Y slab, so the slab
interval degenerates and the test fails), returning no hit, while the
brute-force scan finds the genuine hit at `t = 1` on the first rectangle's
corner. -/
theorem bvh_corner_ray_counterexample :
    bvhNew envTriv [.xyRect 0 1 0 1 0, .xyRect (1/5) (4/5) (1/5) (4/5) (11/2)] 0 0 1 =
      .ok (c1Node, 1) ∧
    hit0 envTriv c1Node ⟨⟨0, -1, -1⟩, ⟨1, 1, 1⟩⟩ (1/1000) 1000 = none ∧
    hit0 envTriv (.figs [.xyRect 0 1 0 1 0, .xyRect (1/5) (4/5) (1/5) (4/5) (11/2)])
        ⟨⟨0, -1, -1⟩, ⟨1, 1, 1⟩⟩ (1/1000) 1000 =
      some ⟨1, ⟨1, 0, 0⟩, ⟨0, 0, 1⟩, 1, 0⟩ := by
  refine ⟨?_, ?_, ?_⟩
  · rw [bvhNew]
    rw [if_neg (by simp), if_neg (by simp [boxOk, Figures.boundingBox])]
    have haxis : (⌊(3 : ℚ) * envTriv.rand 0⌋ : ℤ) = 0 := by
      simp [envTriv]
    rw [haxis]
    have hsort : sortByAxis 0 [Figures.xyRect 0 1 0 1 0,
        Figures.xyRect (1/5) (4/5) (1/5) (4/5) (11/2)] =
        [Figures.xyRect 0 1 0 1 0, Figures.xyRect (1/5) (4/5) (1/5) (4/5) (11/2)] := by
      simp [sortByAxis, List.mergeSort, boxMinX, Figures.boundingBox]
      try norm_num
    rw [hsort, bvhSplit]

    simp only [Figures.boundingBox]
    simp [c1Node, Aabb.surround, min_def, max_def]
    try norm_num
  · simp [hit0, Figures.hit, c1Node, Aabb.slabHit, envTriv, min_def, max_def]
    try norm_num
  · simp [hit0, Figures.hit, Figures.hitScan, envTriv, Ray.extendAt, V3.add, V3.scale]
    try norm_num

theorem xyRect_hit0_eval (env : Env) (x0 x1 y0 y1 k : ℚ) (ray : Ray) (tmin t2 : ℚ) :
    hit0 env (.xyRect x0 x1 y0 y1 k) ray tmin t2 =
      if (k - ray.origin.z) / ray.direction.z < tmin ∨
         (k - ray.origin.z) / ray.direction.z > t2 then none
      else if ray.origin.x + (k - ray.origin.z) / ray.direction.z * ray.direction.x < x0 ∨
              ray.origin.x + (k - ray.origin.z) / ray.direction.z * ray.direction.x > x1 ∨
              ray.origin.y + (k - ray.origin.z) / ray.direction.z * ray.direction.y < y0 ∨
              ray.origin.y + (k - ray.origin.z) / ray.direction.z * ray.direction.y > y1 then
        none
      else
        some { at' := (k - ray.origin.z) / ray.direction.z,
               point := ray.extendAt ((k - ray.origin.z) / ray.direction.z),
               normal := ⟨0, 0, 1⟩,
               u := (ray.origin.x + (k - ray.origin.z) / ray.direction.z * ray.direction.x - x0)
                      / (x1 - x0),
               v := (ray.origin.y + (k - ray.origin.z) / ray.direction.z * ray.direction.y - y0)
                      / (y1 - y0) } := by
  show (Figures.hit env (.xyRect x0 x1 y0 y1 k) ray tmin t2 0).1 = _
  simp only [Figures.hit]
  split_ifs <;> rfl

theorem xyRect_scanCompatible (env : Env) (x0 x1 y0 y1 k : ℚ) (ray : Ray) (tmin tmax : ℚ) :
    ScanCompatible env ray tmin tmax (.xyRect x0 x1 y0 y1 k) := by
  constructor
  · intro rec hrec
    rw [xyRect_hit0_eval] at hrec
    split_ifs at hrec with h1 h2
    cases hrec
    push_neg at h1
    refine ⟨h1.2, ?_, ?_⟩
    · intro s hlt hle
      have hc1 : ¬((k - ray.origin.z) / ray.direction.z < tmin ∨
          (k - ray.origin.z) / ray.direction.z > s) := by
        push_neg
        exact ⟨h1.1, le_of_lt hlt⟩
      rw [xyRect_hit0_eval, if_neg hc1, if_neg h2]
    · intro s hlt hle
      rw [xyRect_hit0_eval, if_pos (Or.inr hlt)]
  · intro hnone s hle
    rw [xyRect_hit0_eval] at hnone
    rw [xyRect_hit0_eval]
    split_ifs at hnone with h1 h2
    · rcases h1 with h1 | h1
      · rw [if_pos (Or.inl h1)]
      · by_cases hs : (k - ray.origin.z) / ray.direction.z > s
        · rw [if_pos (Or.inr hs)]
        · exact absurd (lt_of_le_of_lt hle h1) hs
    · split_ifs with hA
      · rfl
      · rfl

/-- The node built over the two stacked rectangles of the C1 witness. -/
def c1WitnessNode : Figures :=
  .bvhNode ⟨⟨0, 0, 1 - 1/10000⟩, ⟨1, 1, 3 + 1/10000⟩⟩
    (.xyRect 0 1 0 1 1) (.xyRect 0 1 0 1 3)

/-- The ray of the C1 witness. -/
def c1WitnessRay : Ray := ⟨⟨-(1/4), -(1/4), 0⟩, ⟨1, 1, 1⟩⟩

/-- Witness for C1 at a concrete two-rectangle scene and a clean ray: the BVH
traversal and the linear scan agree. -/
theorem bvhNode_hit_eq_scan_witness :
    hit0 envTriv c1WitnessNode c1WitnessRay (1/1000) 1000 =
      hit0 envTriv (.figs [.xyRect 0 1 0 1 1, .xyRect 0 1 0 1 3])
        c1WitnessRay (1/1000) 1000 := by
  have hB : hit0 envTriv (.xyRect 0 1 0 1 3) c1WitnessRay (1/1000) 1000 = none := by
    rw [xyRect_hit0_eval]
    norm_num [c1WitnessRay]
  have htf : TieFree envTriv c1WitnessRay (1/1000) 1000
      (.xyRect 0 1 0 1 1) (.xyRect 0 1 0 1 3) := by
    intro a b ha hb
    rw [hB] at hb
    cases hb
  refine bvhNode_hit_eq_scan envTriv [.xyRect 0 1 0 1 1, .xyRect 0 1 0 1 3] 0 0 1
    c1WitnessNode 1 c1WitnessRay (1/1000) 1000 ?_ ?_ ?_ ?_ ?_ ?_ ?_
  · rw [bvhNew]
    rw [if_neg (by simp), if_neg (by simp [boxOk, Figures.boundingBox])]
    have haxis : (⌊(3 : ℚ) * envTriv.rand 0⌋ : ℤ) = 0 := by simp [envTriv]
    rw [haxis]
    have hsort : sortByAxis 0 [Figures.xyRect 0 1 0 1 1, Figures.xyRect 0 1 0 1 3] =
        [Figures.xyRect 0 1 0 1 1, Figures.xyRect 0 1 0 1 3] := by
      simp [sortByAxis, List.mergeSort, boxMinX, Figures.boundingBox]
    rw [hsort, bvhSplit]
    simp only [Figures.boundingBox]
    simp [c1WitnessNode, Aabb.surround, min_def, max_def]
    try norm_num
  · simp [figuresListRandFree, Figures.randFree]
  · rw [c1WitnessNode, consOK_bvhNode]
    have hslab : Aabb.slabHit ⟨⟨0, 0, 1 - 1/10000⟩, ⟨1, 1, 3 + 1/10000⟩⟩
        c1WitnessRay (1/1000) 1000 = true := by
      simp [Aabb.slabHit, c1WitnessRay]
      norm_num
    rw [hslab]
    simp [consOK_xyRect]
  · intro f hf
    rcases List.mem_cons.mp hf with rfl | hf'
    · exact consOK_xyRect envTriv c1WitnessRay (1/1000) 1000 0 1 0 1 1
    · rcases List.mem_cons.mp hf' with rfl | hf''
      · exact consOK_xyRect envTriv c1WitnessRay (1/1000) 1000 0 1 0 1 3
      · cases hf''
  · intro f hf
    rcases List.mem_cons.mp hf with rfl | hf'
    · exact xyRect_scanCompatible envTriv 0 1 0 1 1 c1WitnessRay (1/1000) 1000
    · rcases List.mem_cons.mp hf' with rfl | hf''
      · exact xyRect_scanCompatible envTriv 0 1 0 1 3 c1WitnessRay (1/1000) 1000
      · cases hf''
  · have hflat : ([Figures.xyRect 0 1 0 1 1, Figures.xyRect 0 1 0 1 3].flatMap
        Figures.leaves) = [Figures.xyRect 0 1 0 1 1, Figures.xyRect 0 1 0 1 3] := by
      simp [Figures.leaves]
    rw [hflat]
    refine List.pairwise_cons.mpr ⟨?_, List.pairwise_singleton _ _⟩
    intro g hg
    rcases List.mem_cons.mp hg with rfl | hg'
    · exact htf
    · cases hg'
  · refine List.pairwise_cons.mpr ⟨?_, List.pairwise_singleton _ _⟩
    intro g hg
    rcases List.mem_cons.mp hg with rfl | hg'
    · exact htf
    · cases hg'
